import Mathlib

/-!
Verification of the confirmation state machine and trace decoder of
`brownie/network/transaction.py` (with `brownie/network/web3.py` as the RPC
boundary).  Python functions are shallowly embedded as Lean functions: the
RPC gateway and the contract registry appear as explicit oracle arguments,
mutable attributes of `TransactionReceipt` become explicit state records,
and Python code that can raise returns `Option` (with `none` standing for a
propagated exception).
-/

namespace Brownie

/-! ### Generic helpers: Python-style list indexing and hex strings -/

/-- Python list indexing `l[i]` with support for negative indices
(`l[-1]` is the last element); out-of-range access raises, modelled
as `none`. -/
def pyGet? {α : Type} (l : List α) (i : Int) : Option α :=
  if i < 0 then
    if (-i).toNat ≤ l.length then l.get? (l.length - (-i).toNat) else none
  else
    l.get? i.toNat

/-- Python string slice `s[-n:]`: the last `n` characters (the whole string
when it is shorter than `n`). -/
def strTakeRight (s : String) (n : Nat) : String :=
  String.mk (s.toList.drop (s.toList.length - n))

/-- Is `c` a hexadecimal digit (either case)? -/
def hexDigit (c : Char) : Bool :=
  ('0' ≤ c ∧ c ≤ '9') ∨ ('a' ≤ c ∧ c ≤ 'f') ∨ ('A' ≤ c ∧ c ≤ 'F')

/-- Value of one hexadecimal digit. -/
def hexDigitVal (c : Char) : Nat :=
  if c ≤ '9' then c.toNat - '0'.toNat
  else if c ≤ 'F' then c.toNat - 'A'.toNat + 10
  else c.toNat - 'a'.toNat + 10

/-- Big-endian value of a list of hex digits. -/
def hexListToNat (l : List Char) : Nat :=
  l.foldl (fun a c => a * 16 + hexDigitVal c) 0

/-- Does the string begin with the two characters `0x`?  (Python
`str.startswith("0x")`.) -/
def startsWith0x (s : String) : Bool :=
  match s.toList with
  | '0' :: 'x' :: _ => true
  | _ => false

/-- Remove a leading `0x`/`0X` if present.  Both `int(s, 16)` and
`HexBytes(s)` accept a prefixed or an unprefixed hex string. -/
def strip0x (s : String) : String :=
  match s.toList with
  | '0' :: 'x' :: rest => String.mk rest
  | '0' :: 'X' :: rest => String.mk rest
  | _ => s

/-- Python `str.zfill(n)` on a character list: left-pad with `'0'` up to
length `n` (never truncates). -/
def zfillL (n : Nat) (l : List Char) : List Char :=
  if n ≤ l.length then l else List.replicate (n - l.length) '0' ++ l

/-- Python `str.zfill(n)`. -/
def zfill (n : Nat) (s : String) : String :=
  String.mk (zfillL n s.toList)

/-- `HexBytes` left-pads an odd-length hex string with one `'0'` so that it
denotes whole bytes. -/
def evenPadL (l : List Char) : List Char :=
  if l.length % 2 = 1 then '0' :: l else l

/-- `bytes.hex()` emits lowercase digits; lowercase one hex digit (the
identity on anything that is not `'A'`-`'F'`). -/
def hexLower (c : Char) : Char :=
  if c = 'A' then 'a' else if c = 'B' then 'b' else if c = 'C' then 'c'
  else if c = 'D' then 'd' else if c = 'E' then 'e' else if c = 'F' then 'f'
  else c

/-- Python `int(s, 16)` for a plain (unsigned, possibly `0x`-prefixed)
hex string; `none` when the string is not a valid hex numeral. -/
def hexStrToNat? (s : String) : Option Nat :=
  let d := strip0x s
  if d.toList ≠ [] ∧ d.toList.all hexDigit then some (hexListToNat d.toList)
  else none

/-- `int.from_bytes(HexBytes(s), "big", signed=True)`: interpret a hex
string as a signed big-endian integer over exactly the bytes it spells
(an empty string denotes `0`).  `none` when the string is not valid hex. -/
def signedFromHex? (s : String) : Option Int :=
  let d := strip0x s
  if d.toList.all hexDigit then
    let nbytes := (d.length + 1) / 2
    let n := hexListToNat d.toList
    if nbytes = 0 then some 0
    else if n < 2 ^ (8 * nbytes - 1) then some (n : Int)
    else some ((n : Int) - 2 ^ (8 * nbytes))
  else none

/-! ### `TransactionReceipt.confirmations` and `wait` (transaction.py 345-451)

`wait` suspends; here we embed its entry decision, which is what the claim
about it concerns: return immediately when `required_confs < 1`, return with
a console message when `self.confirmations > required_confs`, and otherwise
fall through into the nonce-watching / receipt-polling logic. -/

/-- `TransactionReceipt.confirmations`: `0` before inclusion is known
(`block_number` unset or `0`, both falsy in Python), otherwise
`web3.eth.block_number - self.block_number + 1`. -/
def confirmations (block_number : Option Nat) (chainHeight : Nat) : Int :=
  match block_number with
  | none => 0
  | some b => if b = 0 then 0 else (chainHeight : Int) - b + 1

/-- What `TransactionReceipt.wait` does before any polling. -/
inductive WaitAction where
  /-- `required_confs < 1`: immediate `return`. -/
  | belowOne : WaitAction
  /-- already has more confirmations than requested: print and `return`. -/
  | alreadyConfirmed : WaitAction
  /-- fall through into the waiting / polling logic. -/
  | proceed : WaitAction
  deriving DecidableEq, Repr

/-- Entry decision of `TransactionReceipt.wait(required_confs)`
(transaction.py 426-431). -/
def wait (required_confs : Int) (block_number : Option Nat) (chainHeight : Nat) :
    WaitAction :=
  if required_confs < 1 then .belowOne
  else if confirmations block_number chainHeight > required_confs then .alreadyConfirmed
  else .proceed

/-- C9: the claim says `wait` is a no-op whenever the current confirmation
count already *meets* (`≥`) the requested count.  At `required_confs = 1`
for a transaction included in the current head block (`confirmations = 1`,
which meets the request) the code compares with strict `>` and falls
through into the polling logic, so the claim is false as stated. -/
theorem C9_counterexample :
    1 ≤ confirmations (some 5) 5 ∧ wait 1 (some 5) 5 = WaitAction.proceed := by
  decide

/-- C9 (amended): `wait(required_confs)` returns without entering the
waiting/polling logic iff `required_confs < 1` or the current confirmation
count strictly exceeds `required_confs`; neither early return changes the
transaction's state. -/
theorem C9_wait_noop (required_confs : Int) (block_number : Option Nat)
    (chainHeight : Nat) :
    wait required_confs block_number chainHeight ≠ WaitAction.proceed ↔
      (required_confs < 1 ∨ required_confs < confirmations block_number chainHeight) := by
  unfold wait
  split
  · simp_all
  · split <;> simp_all <;> omega

/-! ### Raw trace steps and the format-fixing pass of `_get_trace`
(transaction.py 686-719)

A raw step as returned by `debug_traceTransaction`.  Depending on the node
client, the numeric fields arrive either as native integers or as hex
strings, and stack entries arrive either unprefixed and zero-padded to 64
hex digits (geth/nethermind) or `0x`-prefixed and variable width (erigon).
Stack entries are typed as strings here; the source additionally samples
`isinstance(check, str)` to bail out on clients that return non-string
stacks, a branch that is vacuous in this typed embedding. -/

/-- A numeric JSON field: hex string or native integer. -/
inductive NumVal where
  | str (s : String)
  | int (i : Int)
  deriving DecidableEq, Repr

/-- One raw step of a `structLogs` trace. -/
structure RawStep where
  op : String
  depth : Nat
  pc : NumVal
  gas : NumVal
  gasCost : NumVal
  stack : List String
  memory : List String
  deriving DecidableEq, Repr

/-- Detection of the erigon stack format (transaction.py 689-698): scan for
the first step with a non-empty stack whose first entry is a string and set
`fix_stack` iff that entry starts with `0x`. -/
def detectFixStack : List RawStep → Bool
  | [] => false
  | s :: rest =>
    match s.stack with
    | [] => detectFixStack rest
    | c :: _ => if startsWith0x c then true else detectFixStack rest

/-- Detection of hex-encoded numeric fields (transaction.py 700):
`isinstance(trace[0]["gas"], str)`. -/
def detectFixGas : List RawStep → Bool
  | [] => false
  | s :: _ =>
    match s.gas with
    | .str _ => true
    | .int _ => false

/-- `HexBytes(s).hex().removeprefix("0x").zfill(64)` applied to one stack
entry (transaction.py 707-709); `none` when `HexBytes` would reject the
string.  `HexBytes` strips an optional `0x`, pads to whole bytes and
lowercases; `.hex().removeprefix("0x")` yields those bytes' hex digits. -/
def fixStackEntry (s : String) : Option String :=
  let d := (strip0x s).toList
  if d.all hexDigit then
    some (String.mk (zfillL 64 (evenPadL (d.map hexLower))))
  else none

/-- Apply `fixStackEntry` to every entry of a stack. -/
def fixStackList : List String → Option (List String)
  | [] => some []
  | e :: rest => do
    let e' ← fixStackEntry e
    let rest' ← fixStackList rest
    pure (e' :: rest')

/-- `step["gas"] = int(step["gas"], 16)` (transaction.py 712): applied
unconditionally under `fix_gas`, so a non-string raises (`none`). -/
def fixGas : NumVal → Option NumVal
  | .str v => (hexStrToNat? v).map (fun n : Nat => NumVal.int n)
  | .int _ => none

/-- `gasCost` conversion (transaction.py 714-717): only if it is still a
string, interpret it as a signed big-endian integer. -/
def fixGasCost : NumVal → Option NumVal
  | .str v => (signedFromHex? v).map NumVal.int
  | .int i => some (NumVal.int i)

/-- `pc` conversion (transaction.py 718-719): only if it is still a
string, `int(_, 16)`. -/
def fixPc : NumVal → Option NumVal
  | .str v => (hexStrToNat? v).map (fun n : Nat => NumVal.int n)
  | .int i => some (NumVal.int i)

/-- One iteration of the format-fixing loop (transaction.py 703-719):
canonicalize the stack when `fix_stack`, and convert the three numeric
fields when `fix_gas`. -/
def fixStep (fix_stack fix_gas : Bool) (step : RawStep) : Option RawStep :=
  match (if fix_stack then fixStackList step.stack else some step.stack) with
  | none => none
  | some stack =>
    if fix_gas then
      match fixGas step.gas, fixGasCost step.gasCost, fixPc step.pc with
      | some g, some gc, some pc =>
        some { step with stack := stack, gas := g, gasCost := gc, pc := pc }
      | _, _, _ => none
    else some { step with stack := stack }

/-- The `for step in trace` fixing loop. -/
def fixSteps (fix_stack fix_gas : Bool) : List RawStep → Option (List RawStep)
  | [] => some []
  | s :: rest => do
    let s' ← fixStep fix_stack fix_gas s
    let rest' ← fixSteps fix_stack fix_gas rest
    pure (s' :: rest')

/-- The whole format-fixing pass of `_get_trace` (transaction.py 689-719):
detect the two independent format variants, then rewrite every step when
either fix is needed. -/
def normalizeTrace (trace : List RawStep) : Option (List RawStep) :=
  let fix_stack := detectFixStack trace
  let fix_gas := detectFixGas trace
  if fix_stack ∨ fix_gas then fixSteps fix_stack fix_gas trace else some trace

/-! #### Source-format predicates for the two client families (C3) -/

/-- An erigon-style stack entry: `0x`-prefixed, valid hex, at most 32 bytes
of payload. -/
def isErigonEntry (e : String) : Bool :=
  startsWith0x e ∧ (strip0x e).toList.all hexDigit ∧ (strip0x e).length ≤ 64

/-- A geth/nethermind-style stack entry: exactly 64 unprefixed hex digits. -/
def isGethEntry (e : String) : Bool :=
  e.length = 64 ∧ e.toList.all hexDigit

/-- A non-empty valid hex numeral (what `int(s, 16)` accepts, modulo sign
and whitespace which no client emits). -/
def hexNumStr (s : String) : Bool :=
  (strip0x s).toList ≠ [] ∧ (strip0x s).toList.all hexDigit

/-- Is a numeric field a native integer? -/
def NumVal.isInt : NumVal → Bool
  | .int _ => true
  | .str _ => false

/-- Numeric fields of a step are all hex strings (Nethermind); `gasCost`
may be any valid hex byte string (it goes through `HexBytes`), while `gas`
and `pc` must be non-empty numerals for `int(_, 16)`. -/
def stepGasHex (s : RawStep) : Bool :=
  (match s.gas with | .str g => hexNumStr g | .int _ => false) &&
  (match s.gasCost with | .str c => (strip0x c).toList.all hexDigit | .int _ => false) &&
  (match s.pc with | .str p => hexNumStr p | .int _ => false)

/-- Numeric fields of a step are all native integers. -/
def stepGasInt (s : RawStep) : Bool :=
  s.gas.isInt && s.gasCost.isInt && s.pc.isInt

/-- A canonical (post-normalization) stack entry: exactly 64 hex characters
and no `0x` prefix. -/
def goodEntry (e : String) : Prop :=
  e.length = 64 ∧ e.toList.all hexDigit = true ∧ startsWith0x e = false

/-! #### Lemmas about the canonicalization of one stack entry -/

theorem hexDigit_hexLower {c : Char} (h : hexDigit c = true) :
    hexDigit (hexLower c) = true := by
  unfold hexLower
  split_ifs <;> first | decide | exact h

theorem all_hexDigit_hexLower {l : List Char} (h : l.all hexDigit = true) :
    (l.map hexLower).all hexDigit = true := by
  induction l with
  | nil => rfl
  | cons c rest ih =>
    simp only [List.all_cons, Bool.and_eq_true, List.map_cons] at h ⊢
    exact ⟨hexDigit_hexLower h.1, ih h.2⟩

theorem zfillL_length {n : Nat} {l : List Char} (h : l.length ≤ n) :
    (zfillL n l).length = n := by
  unfold zfillL
  split_ifs with h2
  · omega
  · simp only [List.length_append, List.length_replicate]
    omega

theorem zfillL_all {n : Nat} {l : List Char} (h : l.all hexDigit = true) :
    (zfillL n l).all hexDigit = true := by
  unfold zfillL
  split_ifs with h2
  · exact h
  · simp only [List.all_append, Bool.and_eq_true]
    refine ⟨?_, h⟩
    simp only [List.all_eq_true]
    intro c hc
    rw [List.eq_of_mem_replicate hc]
    decide

theorem evenPadL_length_le {l : List Char} (h : l.length ≤ 64) :
    (evenPadL l).length ≤ 64 := by
  unfold evenPadL
  split_ifs with h2
  · simp only [List.length_cons]
    omega
  · exact h

theorem evenPadL_all {l : List Char} (h : l.all hexDigit = true) :
    (evenPadL l).all hexDigit = true := by
  unfold evenPadL
  split_ifs with h2
  · simp only [List.all_cons, Bool.and_eq_true]
    exact ⟨by decide, h⟩
  · exact h

/-- A string of hex digits cannot start with `0x` (`'x'` is not a digit). -/
theorem startsWith0x_eq_false_of_hex {s : String}
    (h : s.toList.all hexDigit = true) : startsWith0x s = false := by
  unfold startsWith0x
  cases hl : s.toList with
  | nil => rfl
  | cons a rest =>
    cases a2 : rest with
    | nil => simp
    | cons b rest2 =>
      rw [hl, a2] at h
      simp only [List.all_cons, Bool.and_eq_true] at h
      by_cases hb : a = '0'
      · subst hb
        cases hx : decide (b = 'x') with
        | false => simp_all
        | true =>
          have : b = 'x' := of_decide_eq_true hx
          subst this
          exact absurd h.2.1 (by decide)
      · simp_all

theorem fixStackEntry_ok {e : String} (he : isErigonEntry e = true) :
    ∃ r, fixStackEntry e = some r ∧ goodEntry r := by
  unfold isErigonEntry at he
  simp only [Bool.and_eq_true, decide_eq_true_eq] at he
  obtain ⟨-, hhex, hlen⟩ := he
  refine ⟨String.mk (zfillL 64 (evenPadL ((strip0x e).toList.map hexLower))),
    ?_, ?_, ?_, ?_⟩
  · simp only [fixStackEntry]
    rw [if_pos hhex]
  · show (zfillL 64 _).length = 64
    apply zfillL_length
    apply evenPadL_length_le
    rw [List.length_map]
    exact hlen
  · exact zfillL_all (evenPadL_all (all_hexDigit_hexLower hhex))
  · exact startsWith0x_eq_false_of_hex
      (zfillL_all (evenPadL_all (all_hexDigit_hexLower hhex)))

theorem goodEntry_of_geth {e : String} (he : isGethEntry e = true) :
    goodEntry e := by
  unfold isGethEntry at he
  simp only [Bool.and_eq_true, decide_eq_true_eq] at he
  exact ⟨he.1, he.2, startsWith0x_eq_false_of_hex he.2⟩

/-! #### Lemmas about format detection and the fixing loop -/

/-- If the erigon format was not detected on an erigon-format trace, every
stack in the trace is empty. -/
theorem stacks_empty_of_not_detected {l : List RawStep}
    (hdet : detectFixStack l = false)
    (h : ∀ s ∈ l, ∀ e ∈ s.stack, isErigonEntry e = true) :
    ∀ s ∈ l, s.stack = [] := by
  induction l with
  | nil => intro s hs; cases hs
  | cons a rest ih =>
    intro s hs
    rw [detectFixStack] at hdet
    cases hstk : a.stack with
    | nil =>
      rw [hstk] at hdet
      have hdet' : detectFixStack rest = false := hdet
      cases hs with
      | head => exact hstk
      | tail _ hmem =>
        exact ih hdet' (fun s2 hs2 e he => h s2 (List.mem_cons_of_mem a hs2) e he) s hmem
    | cons c cs =>
      rw [hstk] at hdet
      have hdet' : (if startsWith0x c = true then true else detectFixStack rest) = false :=
        hdet
      have hc : isErigonEntry c = true :=
        h a (List.mem_cons_self a rest) c (by rw [hstk]; exact List.mem_cons_self c cs)
      unfold isErigonEntry at hc
      simp only [decide_eq_true_eq] at hc
      rw [hc.1] at hdet'
      simp at hdet'

/-- A geth-format trace never triggers the stack fix. -/
theorem detectFixStack_geth {l : List RawStep}
    (h : ∀ s ∈ l, ∀ e ∈ s.stack, isGethEntry e = true) :
    detectFixStack l = false := by
  induction l with
  | nil => rfl
  | cons a rest ih =>
    rw [detectFixStack]
    cases hstk : a.stack with
    | nil => exact ih (fun s hs e he => h s (List.mem_cons_of_mem a hs) e he)
    | cons c cs =>
      have hc : isGethEntry c = true :=
        h a (List.mem_cons_self a rest) c (by rw [hstk]; exact List.mem_cons_self c cs)
      have hsw : startsWith0x c = false := (goodEntry_of_geth hc).2.2
      show (if startsWith0x c = true then true else detectFixStack rest) = false
      rw [hsw]
      simp only [Bool.false_eq_true, if_false]
      exact ih (fun s hs e he => h s (List.mem_cons_of_mem a hs) e he)

/-- Stack entries of one step are in the format the detected flag expects. -/
def StackOK (fs : Bool) (s : RawStep) : Prop :=
  if fs then ∀ e ∈ s.stack, isErigonEntry e = true
  else ∀ e ∈ s.stack, isGethEntry e = true

/-- Numeric fields of one step are in the format the detected flag expects. -/
def GasOK (fg : Bool) (s : RawStep) : Prop :=
  if fg then stepGasHex s = true else stepGasInt s = true

/-- What C3 asserts of a normalized step relative to its source step. -/
def stepNormalized (old new : RawStep) : Prop :=
  (∀ e ∈ new.stack, goodEntry e) ∧
  (new.gas.isInt = true ∧ new.gasCost.isInt = true ∧ new.pc.isInt = true) ∧
  (∀ c, old.gasCost = .str c → ∃ v, signedFromHex? c = some v ∧ new.gasCost = .int v)

theorem hexStrToNat?_isSome {g : String} (h : hexNumStr g = true) :
    ∃ v, hexStrToNat? g = some v := by
  simp only [hexNumStr, Bool.and_eq_true, decide_eq_true_eq] at h
  refine ⟨hexListToNat (strip0x g).toList, ?_⟩
  simp only [hexStrToNat?]
  rw [if_pos (And.intro h.1 h.2)]

theorem signedFromHex?_isSome {c : String}
    (h : (strip0x c).toList.all hexDigit = true) :
    ∃ v, signedFromHex? c = some v := by
  simp only [signedFromHex?]
  rw [if_pos h]
  split_ifs <;> exact ⟨_, rfl⟩

theorem fixStackList_ok {l : List String}
    (h : ∀ e ∈ l, isErigonEntry e = true) :
    ∃ out, fixStackList l = some out ∧ ∀ e ∈ out, goodEntry e := by
  induction l with
  | nil => exact ⟨[], rfl, fun e he => absurd he (List.not_mem_nil e)⟩
  | cons a rest ih =>
    obtain ⟨r, hr, hgood⟩ := fixStackEntry_ok (h a (List.mem_cons_self a rest))
    obtain ⟨out, hout, hall⟩ := ih (fun e he => h e (List.mem_cons_of_mem a he))
    refine ⟨r :: out, ?_, ?_⟩
    · rw [fixStackList, hr, hout]
      rfl
    · intro e he
      cases he with
      | head => exact hgood
      | tail _ hmem => exact hall e hmem

/-- The numeric-field half of `fixStep` succeeds under `GasOK`, with the
`gasCost` of a hex-string source interpreted as a signed integer. -/
theorem fixStep_gas_ok {fg : Bool} {s : RawStep} (hgas : GasOK fg s) :
    (fg = false ∧ stepGasInt s = true) ∨
    (fg = true ∧ ∃ g c p gv cv pv, s.gas = .str g ∧ s.gasCost = .str c ∧ s.pc = .str p ∧
      hexStrToNat? g = some gv ∧ signedFromHex? c = some cv ∧ hexStrToNat? p = some pv) := by
  cases fg with
  | false =>
    refine Or.inl ⟨rfl, ?_⟩
    simpa [GasOK] using hgas
  | true =>
    have hhex : stepGasHex s = true := by simpa [GasOK] using hgas
    unfold stepGasHex at hhex
    simp only [Bool.and_eq_true] at hhex
    obtain ⟨⟨hg, hc⟩, hp⟩ := hhex
    refine Or.inr ⟨rfl, ?_⟩
    cases hgv : s.gas with
    | int i => rw [hgv] at hg; simp at hg
    | str g =>
      rw [hgv] at hg
      cases hcv : s.gasCost with
      | int i => rw [hcv] at hc; simp at hc
      | str c =>
        rw [hcv] at hc
        cases hpv : s.pc with
        | int i => rw [hpv] at hp; simp at hp
        | str p =>
          rw [hpv] at hp
          obtain ⟨gv, hgsome⟩ := hexStrToNat?_isSome hg
          obtain ⟨cv, hcsome⟩ := signedFromHex?_isSome hc
          obtain ⟨pv, hpsome⟩ := hexStrToNat?_isSome hp
          exact ⟨g, c, p, gv, cv, pv, rfl, rfl, rfl, hgsome, hcsome, hpsome⟩

theorem fixStep_ok {fs fg : Bool} {s : RawStep}
    (hstk : StackOK fs s) (hgas : GasOK fg s) :
    ∃ s', fixStep fs fg s = some s' ∧ stepNormalized s s' := by
  have hstack : ∃ stk, (if fs = true then fixStackList s.stack else some s.stack) = some stk ∧
      ∀ e ∈ stk, goodEntry e := by
    cases fs with
    | true =>
      simp only [if_true]
      exact fixStackList_ok (by simpa [StackOK] using hstk)
    | false =>
      simp only [Bool.false_eq_true, if_false]
      have hg : ∀ e ∈ s.stack, isGethEntry e = true := by simpa [StackOK] using hstk
      exact ⟨s.stack, rfl, fun e he => goodEntry_of_geth (hg e he)⟩
  obtain ⟨stk, hstkeq, hstkgood⟩ := hstack
  rcases fixStep_gas_ok hgas with ⟨hfg, hint⟩ | ⟨hfg, g, c, p, gv, cv, pv, hgv, hcv, hpv,
      hgsome, hcsome, hpsome⟩
  · subst hfg
    unfold stepGasInt at hint
    simp only [Bool.and_eq_true] at hint
    refine ⟨{ s with stack := stk }, ?_, ?_, ?_, ?_⟩
    · unfold fixStep
      rw [hstkeq]
      simp
    · exact hstkgood
    · exact ⟨hint.1.1, hint.1.2, hint.2⟩
    · intro c hc
      cases hv : s.gasCost with
      | str s2 => rw [hv] at hint; simp [NumVal.isInt] at hint
      | int i => rw [hv] at hc; cases hc
  · subst hfg
    refine ⟨{ s with stack := stk, gas := .int gv, gasCost := .int cv, pc := .int pv },
      ?_, ?_, ?_, ?_⟩
    · unfold fixStep
      rw [hstkeq]
      simp only [if_true, hgv, hcv, hpv, fixGas, fixGasCost, fixPc,
        hgsome, hcsome, hpsome, Option.map_some']
    · exact hstkgood
    · exact ⟨rfl, rfl, rfl⟩
    · intro c2 hc2
      rw [hcv] at hc2
      cases hc2
      exact ⟨cv, hcsome, rfl⟩

theorem fixSteps_ok {fs fg : Bool} {l : List RawStep}
    (hstk : ∀ s ∈ l, StackOK fs s) (hgas : ∀ s ∈ l, GasOK fg s) :
    ∃ out, fixSteps fs fg l = some out ∧ List.Forall₂ stepNormalized l out := by
  induction l with
  | nil => exact ⟨[], rfl, List.Forall₂.nil⟩
  | cons a rest ih =>
    obtain ⟨a', ha, hna⟩ := fixStep_ok (hstk a (List.mem_cons_self a rest))
      (hgas a (List.mem_cons_self a rest))
    obtain ⟨out, hout, hall⟩ := ih (fun s hs => hstk s (List.mem_cons_of_mem a hs))
      (fun s hs => hgas s (List.mem_cons_of_mem a hs))
    refine ⟨a' :: out, ?_, List.Forall₂.cons hna hall⟩
    rw [fixSteps, ha, hout]
    rfl

/-- C3: after the format-fixing pass of `_get_trace` on a non-empty raw
trace whose stack entries are uniformly in the erigon format
(`0x`-prefixed, variable width) or uniformly in the geth/nethermind format
(unprefixed, 64 hex digits), and whose numeric fields are uniformly hex
strings or uniformly native integers, the pass succeeds and every resulting
step has stack entries of exactly 64 unprefixed hex characters and native
integers for `gas`, `gasCost` and `pc`, a hex-encoded `gasCost` having been
interpreted as a signed big-endian integer. -/
theorem C3_trace_normalization (trace : List RawStep) (hne : trace ≠ [])
    (hstack : (∀ s ∈ trace, ∀ e ∈ s.stack, isErigonEntry e = true) ∨
              (∀ s ∈ trace, ∀ e ∈ s.stack, isGethEntry e = true))
    (hgas : (∀ s ∈ trace, stepGasHex s = true) ∨
            (∀ s ∈ trace, stepGasInt s = true)) :
    ∃ out, normalizeTrace trace = some out ∧
      List.Forall₂ stepNormalized trace out := by
  have hStackOK : ∀ s ∈ trace, StackOK (detectFixStack trace) s := by
    cases hstack with
    | inl herig =>
      cases hdet : detectFixStack trace with
      | true =>
        intro s hs
        simpa [StackOK] using herig s hs
      | false =>
        intro s hs
        have : s.stack = [] := stacks_empty_of_not_detected hdet herig s hs
        simp [StackOK, this]
    | inr hgeth =>
      rw [detectFixStack_geth hgeth]
      intro s hs
      simpa [StackOK] using hgeth s hs
  obtain ⟨s0, rest0, hcons⟩ := List.exists_cons_of_ne_nil hne
  have hGasOK : ∀ s ∈ trace, GasOK (detectFixGas trace) s := by
    cases hgas with
    | inl hhex =>
      have h0 : stepGasHex s0 = true := hhex s0 (by rw [hcons]; exact List.mem_cons_self _ _)
      have hdet : detectFixGas trace = true := by
        rw [hcons]
        unfold stepGasHex at h0
        cases hg : s0.gas with
        | str g => simp only [detectFixGas, hg]
        | int i => rw [hg] at h0; simp at h0
      rw [hdet]
      intro s hs
      simpa [GasOK] using hhex s hs
    | inr hint =>
      have h0 : stepGasInt s0 = true := hint s0 (by rw [hcons]; exact List.mem_cons_self _ _)
      have hdet : detectFixGas trace = false := by
        rw [hcons]
        unfold stepGasInt at h0
        cases hg : s0.gas with
        | str g => rw [hg] at h0; simp [NumVal.isInt] at h0
        | int i => simp only [detectFixGas, hg]
      rw [hdet]
      intro s hs
      simpa [GasOK] using hint s hs
  by_cases hcond : detectFixStack trace = true ∨ detectFixGas trace = true
  · have hnorm : normalizeTrace trace =
        fixSteps (detectFixStack trace) (detectFixGas trace) trace := by
      simp only [normalizeTrace]
      rw [if_pos hcond]
    rw [hnorm]
    exact fixSteps_ok hStackOK hGasOK
  · have h1 : detectFixStack trace = false := by
      cases h : detectFixStack trace
      · rfl
      · exact absurd (Or.inl h) hcond
    have h2 : detectFixGas trace = false := by
      cases h : detectFixGas trace
      · rfl
      · exact absurd (Or.inr h) hcond
    have hnorm : normalizeTrace trace = some trace := by
      simp only [normalizeTrace]
      rw [if_neg hcond]
    rw [hnorm]
    refine ⟨trace, rfl, ?_⟩
    rw [List.forall₂_same]
    intro s hs
    have hs1 := hStackOK s hs
    have hs2 := hGasOK s hs
    rw [h1] at hs1
    rw [h2] at hs2
    have hint : stepGasInt s = true := by simpa [GasOK] using hs2
    unfold stepGasInt at hint
    simp only [Bool.and_eq_true] at hint
    refine ⟨?_, ⟨hint.1.1, hint.1.2, hint.2⟩, ?_⟩
    · intro e he
      have hg : ∀ e2 ∈ s.stack, isGethEntry e2 = true := by simpa [StackOK] using hs1
      exact goodEntry_of_geth (hg e he)
    · intro c hc
      cases hv : s.gasCost with
      | str s2 => rw [hv] at hint; simp [NumVal.isInt] at hint
      | int i => rw [hv] at hc; cases hc

/-- A concrete erigon-format step for the C3 witness. -/
def erigonSample : RawStep :=
  { op := "PUSH1", depth := 0, pc := NumVal.str "0x3", gas := NumVal.str "0x5208",
    gasCost := NumVal.str "0xffff6a19", stack := ["0x1F"], memory := [] }

/-- Witness for C3 at a concrete one-step erigon-format trace. -/
theorem C3_trace_normalization_witness :
    ∃ out, normalizeTrace [erigonSample] = some out ∧
      List.Forall₂ stepNormalized [erigonSample] out :=
  C3_trace_normalization [erigonSample] (by decide) (Or.inl (by decide))
    (Or.inl (by decide))

/-! ### `_get_trace` and the `trace_property` guard (transaction.py 61-82,
647-724)

The transaction record's trace-related mutable attributes, the exceptions
that can cross the boundary of `_get_trace`, and the oracle for the one
RPC request `_get_trace` can make. -/

/-- Exceptions that `_get_trace` / `trace_property` can raise. -/
inductive Exc where
  /-- `RPCRequestError(msg)` -/
  | rpcRequestError (msg : String)
  /-- any other propagated Python exception -/
  | pyError
  deriving DecidableEq, Repr

/-- Response of the node to a `debug_traceTransaction` request. -/
inductive TraceResponse where
  /-- `requests.exceptions.Timeout` / `ConnectionError` -/
  | netError
  /-- JSON-RPC error payload with its message -/
  | error (msg : String)
  /-- successful result: the `structLogs` list -/
  | ok (structLogs : List RawStep)
  deriving DecidableEq, Repr

/-- The slice of `TransactionReceipt` state that the trace-retrieval and
trace-property code reads and writes. -/
structure TxState where
  status : Int
  input : String
  gas_used : Nat
  /-- `web3.supports_traces` -/
  supports_traces : Bool
  raw_trace : Option (List RawStep)
  trace : Option (List RawStep)
  modified_state : Option Bool
  trace_exc : Option Exc
  deriving DecidableEq, Repr

/-- Result of running a (possibly raising) operation on the record:
its final state, how many trace RPC requests it performed, and the
exception it raised, if any. -/
structure GetTraceResult where
  st : TxState
  requests : Nat
  exc : Option Exc
  deriving DecidableEq, Repr

/-- `TransactionReceipt._get_trace` (transaction.py 647-724).  The
return-value / revert-string reconstruction performed by
`_confirmed_trace` / `_reverted_trace` after normalization is outside the
claims and is represented only by its first statement, the
`modified_state` assignment. -/
def getTrace (st : TxState) (rpc : TraceResponse) : GetTraceResult :=
  if st.raw_trace.isSome then ⟨st, 0, none⟩
  else
    let st1 := { st with raw_trace := some ([] : List RawStep) }
    if st1.input = "0x" ∧ st1.gas_used = 21000 then
      ⟨{ st1 with modified_state := some false, trace := some [] }, 0, none⟩
    else if st1.supports_traces = false then
      ⟨st1, 0, some (.rpcRequestError
        "Node client does not support debug_traceTransaction")⟩
    else
      match rpc with
      | .netError =>
        ⟨st1, 1, some (.rpcRequestError
          "Encountered a network error while requesting debug_traceTransaction. The local RPC client has likely crashed.")⟩
      | .error m =>
        let e := Exc.rpcRequestError m
        ⟨{ st1 with modified_state := none, trace_exc := some e }, 1, some e⟩
      | .ok structLogs =>
        let st2 := { st1 with raw_trace := some structLogs }
        if structLogs = [] then
          ⟨{ st2 with modified_state := some false }, 1, none⟩
        else
          match normalizeTrace structLogs with
          | none => ⟨st2, 1, some .pyError⟩
          | some ntrace =>
            let st3 : TxState := { st2 with raw_trace := some ntrace }
            if st3.status ≠ (0 : Int) then
              let ms := ntrace.any (fun s => s.op = "SSTORE")
              ⟨{ st3 with modified_state := some ms }, 1, none⟩
            else
              ⟨{ st3 with modified_state := some false }, 1, none⟩

/-- `Status(...).name.lower()` for the four states. -/
def statusName (s : Int) : String :=
  if s = -2 then "dropped" else if s = -1 then "pending"
  else if s = 0 then "reverted" else "confirmed"

/-- The replacement error message raised by `trace_property` when the node
lacks trace support (transaction.py 76-80). -/
def unsupportedMsg (fnName : String) (status : Int) : String :=
  "Accessing TransactionReceipt." ++ fnName ++ " on a " ++ statusName status ++
    " transaction requires the debug_traceTransaction RPC endpoint, but the node client does not support it or has not made it available."

/-- Result of reading a trace-dependent property: the value (`none` both
for Python `None` and when an exception was raised), plus the effects. -/
structure AccessResult (α : Type) where
  value : Option α
  st : TxState
  requests : Nat
  exc : Option Exc
  deriving DecidableEq, Repr

/-- The `trace_property` decorator (transaction.py 61-82), generic in the
wrapped attribute body `fn`: return `None` on a pending/dropped
transaction, replay a cached trace exception, and otherwise run `fn`,
rewrapping an `RPCRequestError` when the node lacks trace support. -/
def traceProperty {α : Type} (fn : TxState → AccessResult α) (fnName : String)
    (st : TxState) : AccessResult α :=
  if st.status < 0 then ⟨none, st, 0, none⟩
  else
    match st.trace_exc with
    | some e => ⟨none, st, 0, some e⟩
    | none =>
      let r := fn st
      match r.exc with
      | some (.rpcRequestError _) =>
        if st.supports_traces then r
        else { r with exc := some (.rpcRequestError (unsupportedMsg fnName st.status)) }
      | _ => r

/-- The state `_get_trace` leaves behind after the value-transfer
short-circuit: empty raw trace, empty expanded trace, `modified_state`
false. -/
def shortCircuitState (st : TxState) : TxState :=
  { st with raw_trace := some [], trace := some [], modified_state := some false }

/-- The state `_get_trace` leaves behind after the endpoint answered with
an error payload: the `RPCRequestError` cached in `_trace_exc`. -/
def errCachedState (st : TxState) (m : String) : TxState :=
  { st with raw_trace := some [], modified_state := none, trace_exc := some (Exc.rpcRequestError m) }

/-- C4: on first retrieval for a plain value transfer (`input == "0x"` and
`gas_used == 21000`), `_get_trace` short-circuits: the raw trace and the
expanded trace both become empty lists, `modified_state` becomes `False`,
no exception is raised, and no trace request is made to the node —
whatever the node would have answered. -/
theorem C4_value_transfer_short_circuit (st : TxState) (rpc : TraceResponse)
    (hraw : st.raw_trace = none) (hinput : st.input = "0x")
    (hgas : st.gas_used = 21000) :
    getTrace st rpc = ⟨shortCircuitState st, 0, none⟩ := by
  unfold getTrace shortCircuitState
  rw [hraw]
  simp only [Option.isSome_none, Bool.false_eq_true, if_false]
  rw [if_pos ⟨hinput, hgas⟩]

/-- A concrete freshly-confirmed plain value transfer. -/
def valueTransferState : TxState :=
  { status := 1, input := "0x", gas_used := 21000, supports_traces := true,
    raw_trace := none, trace := none, modified_state := none, trace_exc := none }

/-- Witness for C4 at a concrete state, with a node response that would
produce a non-empty trace were it consulted. -/
theorem C4_value_transfer_short_circuit_witness :
    getTrace valueTransferState (.ok [erigonSample]) =
      ⟨shortCircuitState valueTransferState, 0, none⟩ :=
  C4_value_transfer_short_circuit valueTransferState (.ok [erigonSample]) rfl rfl rfl

/-- C7: when the trace endpoint answers with an error payload, the
resulting `RPCRequestError` is recorded once in `_trace_exc` (and
`_modified_state` is cleared), the same exception is raised, and every
subsequent access of any trace-dependent property — whatever its body
would do — re-raises exactly that exception with no further trace request
and no state change. -/
theorem C7_trace_error_cached (st : TxState) (m : String)
    (hraw : st.raw_trace = none)
    (hshort : ¬(st.input = "0x" ∧ st.gas_used = 21000))
    (hsup : st.supports_traces = true) (hstat : 0 ≤ st.status) :
    getTrace st (.error m) =
      ⟨errCachedState st m, 1, some (.rpcRequestError m)⟩ ∧
    ∀ (α : Type) (fn : TxState → AccessResult α) (fnName : String),
      traceProperty fn fnName (errCachedState st m) =
        ⟨none, errCachedState st m, 0, some (.rpcRequestError m)⟩ := by
  constructor
  · unfold getTrace errCachedState
    rw [hraw]
    simp only [Option.isSome_none, Bool.false_eq_true, if_false]
    rw [if_neg hshort, if_neg (by rw [hsup]; simp)]
  · intro α fn fnName
    unfold traceProperty errCachedState
    rw [if_neg (by simp only; omega)]

/-- A concrete freshly-reverted contract call. -/
def revertedCallState : TxState :=
  { status := 0, input := "0xa9059cbb", gas_used := 30000, supports_traces := true,
    raw_trace := none, trace := none, modified_state := none, trace_exc := none }

/-- Witness for C7 at a concrete reverted-transaction state. -/
theorem C7_trace_error_cached_witness :
    getTrace revertedCallState (.error "boom") =
      ⟨errCachedState revertedCallState "boom", 1, some (.rpcRequestError "boom")⟩ ∧
    ∀ (α : Type) (fn : TxState → AccessResult α) (fnName : String),
      traceProperty fn fnName (errCachedState revertedCallState "boom") =
        ⟨none, errCachedState revertedCallState "boom", 0,
          some (.rpcRequestError "boom")⟩ :=
  C7_trace_error_cached revertedCallState "boom" rfl (by decide) rfl (by decide)

/-- C10: any trace-dependent property accessed on a transaction whose
status is negative (`Pending` or `Dropped`) yields `None`: no trace
request, no exception, no state change — whatever the property body `fn`
would do, and even when a trace error is already cached. -/
theorem C10_pending_returns_none {α : Type} (fn : TxState → AccessResult α)
    (fnName : String) (st : TxState) (hstat : st.status < 0) :
    traceProperty fn fnName st = ⟨none, st, 0, none⟩ := by
  unfold traceProperty
  rw [if_pos hstat]

/-- A concrete dropped transaction with a cached trace error. -/
def droppedState : TxState :=
  { status := -2, input := "0x60", gas_used := 21000, supports_traces := true,
    raw_trace := none, trace := none, modified_state := none, trace_exc := some Exc.pyError }

/-- Witness for C10 on a concrete dropped transaction, with a body that
would request and raise if it were run. -/
theorem C10_pending_returns_none_witness :
    traceProperty (fun s => AccessResult.mk (some 7) s 3 (some Exc.pyError))
        "events" droppedState =
      ⟨none, droppedState, 0, none⟩ :=
  C10_pending_returns_none _ "events" droppedState (by decide)

/-! ### `_await_confirmation`: the first-inclusion loop (transaction.py
480-521) and the terminal sequence (transaction.py 523-574)

The loop polls the receipt once per second and, no more often than every
15 seconds, re-reads the sender's transaction count.  One iteration's
observations: whether the 15-second window elapsed (on the first iteration
`nonce_time == 0.0`, so with a wall clock it always has), the count the
node would answer, and the receipt — `none` for `TransactionNotFound`,
`some none` for a receipt with a null `blockHash` (old Parity), and
`some (some h)` for a receipt included in block-hash `h`. -/

/-- Observations available to one iteration of the first-inclusion loop. -/
structure IterObs where
  timeElapsed : Bool
  nonceVal : Nat
  receipt : Option (Option Nat)
  deriving DecidableEq, Repr

/-- Did this iteration observe a receipt with a non-null block hash? -/
def isConfirmObs (o : IterObs) : Bool :=
  match o.receipt with
  | some (some _) => true
  | _ => false

/-- How the first-inclusion loop exits. -/
inductive FirstWaitOutcome where
  /-- `break`: receipt with a non-null block hash observed. -/
  | confirmed (bh : Nat)
  /-- sender nonce exceeded the tracked nonce first: status `Dropped`,
  completion event set, `return`. -/
  | dropped
  /-- observations exhausted with the loop still polling. -/
  | pending
  deriving DecidableEq, Repr

/-- The first-inclusion loop of `_await_confirmation` (transaction.py
485-521), driven by a finite list of per-iteration observations:
refresh `sender_nonce` when the 15-second window elapsed, then check the
receipt (breaking on a non-null block hash), and only then compare
`sender_nonce` with the tracked nonce, dropping when it is exceeded.
`TransactionNotFound` is absorbed into `receipt = None` and no step
raises. -/
def awaitFirstWait (nonce : Nat) (sender_nonce : Nat) :
    List IterObs → FirstWaitOutcome
  | [] => .pending
  | o :: rest =>
    let sn := if o.timeElapsed then o.nonceVal else sender_nonce
    match o.receipt with
    | some (some bh) => .confirmed bh
    | _ =>
      if sn > nonce then .dropped
      else awaitFirstWait nonce sn rest

/-- `(status, confirmed-event-set)` after the loop returned (for the
`dropped` exit the code runs `self.status = Status(-2)` and
`self._confirmed.set()`; the other exits leave both untouched, at
`Pending`/unset). -/
def statusOf : FirstWaitOutcome → Int × Bool
  | .dropped => (-2, true)
  | _ => (-1, false)

/-- The `sender_nonce` value in scope at iteration `k` (0-indexed),
starting from `init` (the code initializes `sender_nonce = 0`). -/
def effNonce (init : Nat) : List IterObs → Nat → Nat
  | [], _ => init
  | o :: rest, k =>
    let sn := if o.timeElapsed then o.nonceVal else init
    match k with
    | 0 => sn
    | k + 1 => effNonce sn rest k

theorem awaitFirstWait_dropped_iff (nonce init : Nat) (obs : List IterObs) :
    awaitFirstWait nonce init obs = .dropped ↔
      ∃ k < obs.length, nonce < effNonce init obs k ∧
        ∀ o ∈ obs.take (k + 1), isConfirmObs o = false := by
  induction obs generalizing init with
  | nil =>
    simp [awaitFirstWait]
  | cons o rest ih =>
    rw [awaitFirstWait]
    rcases hrec : o.receipt with - | bh
    · -- TransactionNotFound
      by_cases hdrop : (if o.timeElapsed then o.nonceVal else init) > nonce
      · rw [if_pos hdrop]
        constructor
        · intro _
          refine ⟨0, by simp, ?_, ?_⟩
          · simpa [effNonce] using hdrop
          · intro o2 ho2
            simp only [List.take_succ_cons, List.take_zero, List.mem_singleton] at ho2
            subst ho2
            simp [isConfirmObs, hrec]
        · intro _; rfl
      · rw [if_neg hdrop]
        rw [ih]
        constructor
        · rintro ⟨k, hk, hn, hc⟩
          refine ⟨k + 1, by simpa using hk, ?_, ?_⟩
          · simpa [effNonce] using hn
          · intro o2 ho2
            simp only [List.take_succ_cons, List.mem_cons] at ho2
            rcases ho2 with h | h
            · subst h
              simp [isConfirmObs, hrec]
            · exact hc o2 h
        · rintro ⟨k, hk, hn, hc⟩
          cases k with
          | zero =>
            exfalso
            apply hdrop
            simpa [effNonce] using hn
          | succ k2 =>
            refine ⟨k2, by simpa using hk, ?_, ?_⟩
            · simpa [effNonce] using hn
            · intro o2 ho2
              apply hc
              simp only [List.take_succ_cons]
              exact List.mem_cons_of_mem o ho2
    · rcases bh with - | h
      · -- receipt with null blockHash: same as not found
        by_cases hdrop : (if o.timeElapsed then o.nonceVal else init) > nonce
        · rw [if_pos hdrop]
          constructor
          · intro _
            refine ⟨0, by simp, ?_, ?_⟩
            · simpa [effNonce] using hdrop
            · intro o2 ho2
              simp only [List.take_succ_cons, List.take_zero, List.mem_singleton] at ho2
              subst ho2
              simp [isConfirmObs, hrec]
          · intro _; rfl
        · rw [if_neg hdrop]
          rw [ih]
          constructor
          · rintro ⟨k, hk, hn, hc⟩
            refine ⟨k + 1, by simpa using hk, ?_, ?_⟩
            · simpa [effNonce] using hn
            · intro o2 ho2
              simp only [List.take_succ_cons, List.mem_cons] at ho2
              rcases ho2 with h | h
              · subst h
                simp [isConfirmObs, hrec]
              · exact hc o2 h
          · rintro ⟨k, hk, hn, hc⟩
            cases k with
            | zero =>
              exfalso
              apply hdrop
              simpa [effNonce] using hn
            | succ k2 =>
              refine ⟨k2, by simpa using hk, ?_, ?_⟩
              · simpa [effNonce] using hn
              · intro o2 ho2
                apply hc
                simp only [List.take_succ_cons]
                exact List.mem_cons_of_mem o ho2
      · -- receipt with non-null blockHash: break
        constructor
        · intro hcontra
          cases hcontra
        · rintro ⟨k, hk, hn, hc⟩
          exfalso
          have : isConfirmObs o = false := by
            apply hc
            cases k <;> simp [List.take_succ_cons]
          rw [isConfirmObs, hrec] at this
          cases this

/-- C2: while awaiting first inclusion, the watcher ends with status
`Dropped` (-2) and the completion event set — without raising — exactly
when some iteration's in-scope sender transaction count exceeds the
tracked nonce and no receipt with a non-null block hash has been observed
up to and including that iteration; the `∀ j ≤ k` bound (rather than
`∀ j < k`) is the receipt-check-before-nonce-check order inside each
iteration. -/
theorem C2_nonce_drop (nonce : Nat) (obs : List IterObs) :
    statusOf (awaitFirstWait nonce 0 obs) = (-2, true) ↔
      ∃ k < obs.length, nonce < effNonce 0 obs k ∧
        ∀ o ∈ obs.take (k + 1), isConfirmObs o = false := by
  rw [← awaitFirstWait_dropped_iff]
  constructor
  · intro h
    cases ho : awaitFirstWait nonce 0 obs <;> rw [ho] at h <;>
      first | rfl | (simp [statusOf] at h)
  · intro h
    rw [h]
    rfl

/-! #### The terminal sequence after a receipt is obtained
(transaction.py 523-574)

Once the first-inclusion loop breaks with a receipt, `_await_confirmation`
runs, in order: the silencing loop over the other same-sender/same-nonce
transactions, `self._set_from_receipt(receipt)` (with the extra-
confirmation loop, coverage hook and console output in between, none of
which touches another transaction's status or event), then
`self._confirmed.set()`, and only then the loop that marks each competing
transaction `Dropped` and sets its completion event.  Below, the path on
which the extra-confirmation loop completes without a reorg, as an event
trace; transactions are named by identifiers. -/

/-- Cross-transaction-visible events of the terminal sequence. -/
inductive TailEv where
  /-- `dropped_tx._silent = True` -/
  | silence (txid : Nat)
  /-- `self._set_from_receipt(receipt)` (outcome fields populated) -/
  | setFromReceipt (txid : Nat)
  /-- `_confirmed.set()` — the one-shot completion event -/
  | confirmSet (txid : Nat)
  /-- `status = Status(-2)` — marked `Dropped` -/
  | dropStatus (txid : Nat)
  deriving DecidableEq, Repr

/-- The event trace emitted by transaction.py 523-574 for transaction
`self` with competing tracked transactions `others` (the
`TxHistory().filter(sender=.., nonce=.., key=..)` result). -/
def awaitTailEvents (self : Nat) (others : List Nat) : List TailEv :=
  (others.map .silence) ++ [.setFromReceipt self] ++ [.confirmSet self] ++
    others.flatMap (fun d => [.dropStatus d, .confirmSet d])

/-- Index of the first occurrence of an event (list length if absent). -/
def firstIdx : List TailEv → TailEv → Nat
  | [], _ => 0
  | x :: rest, e => if x = e then 0 else firstIdx rest e + 1

theorem firstIdx_append_of_not_mem {l1 l2 : List TailEv} {e : TailEv}
    (h : e ∉ l1) : firstIdx (l1 ++ l2) e = l1.length + firstIdx l2 e := by
  induction l1 with
  | nil => simp
  | cons a rest ih =>
    have hane : ¬ (a = e) := by
      intro hx
      subst hx
      exact h (List.mem_cons_self a rest)
    rw [List.cons_append, firstIdx, if_neg hane,
      ih (fun hm => h (List.mem_cons_of_mem a hm))]
    simp only [List.length_cons]
    omega

/-- C1 is false on the code: with one competing transaction, the confirmed
transaction's completion event fires strictly before the competitor is
marked `Dropped`, so a waiter on the confirmed transaction can observe the
competitor still pending.  (The claim asserts the opposite order.) -/
theorem C1_counterexample :
    awaitTailEvents 0 [1] =
      [.silence 1, .setFromReceipt 0, .confirmSet 0, .dropStatus 1, .confirmSet 1] ∧
    ¬ firstIdx (awaitTailEvents 0 [1]) (.dropStatus 1) <
        firstIdx (awaitTailEvents 0 [1]) (.confirmSet 0) := by
  decide

/-- In the drop loop's event trace, the first `dropStatus d` strictly
precedes the first `confirmSet d`, for `d` in the (duplicate-free) list. -/
theorem dropLoop_order {others : List Nat} {d : Nat} (hmem : d ∈ others)
    (hnd : others.Nodup) :
    firstIdx (others.flatMap (fun x => [.dropStatus x, .confirmSet x])) (.dropStatus d) <
      firstIdx (others.flatMap (fun x => [.dropStatus x, .confirmSet x])) (.confirmSet d) := by
  induction others with
  | nil => cases hmem
  | cons a rest ih =>
    have hshape : (a :: rest).flatMap (fun x => [TailEv.dropStatus x, TailEv.confirmSet x]) =
        TailEv.dropStatus a :: TailEv.confirmSet a ::
          rest.flatMap (fun x => [TailEv.dropStatus x, TailEv.confirmSet x]) := rfl
    rw [hshape]
    rcases List.mem_cons.mp hmem with h | h
    · subst h
      simp [firstIdx]
    · have hne : ¬ (d = a) := by
        intro hx
        subst hx
        exact (List.nodup_cons.mp hnd).1 h
      have h1 : ¬ (TailEv.dropStatus a = TailEv.dropStatus d) := by
        simp
        intro hx
        exact hne hx.symm
      have h2 : ¬ (TailEv.confirmSet a = TailEv.dropStatus d) := by simp
      have h3 : ¬ (TailEv.dropStatus a = TailEv.confirmSet d) := by simp
      have h4 : ¬ (TailEv.confirmSet a = TailEv.confirmSet d) := by
        simp
        intro hx
        exact hne hx.symm
      have hrec := ih h (List.nodup_cons.mp hnd).2
      simp only [firstIdx]
      rw [if_neg h1, if_neg h2, if_neg h3, if_neg h4]
      omega

/-- C1 (amended): in the terminal sequence, the confirmed transaction's
completion event is set first — so a waiter on it may still observe a
competitor pending — and after that every competing same-sender/same-nonce
transaction is marked `Dropped` strictly before its own completion event
is set, so a waiter released on a competing transaction does observe it
terminal. -/
theorem C1_drop_after_confirm (self : Nat) (others : List Nat)
    (hself : self ∉ others) (hnd : others.Nodup) :
    ∀ d ∈ others,
      firstIdx (awaitTailEvents self others) (.confirmSet self) <
        firstIdx (awaitTailEvents self others) (.dropStatus d) ∧
      firstIdx (awaitTailEvents self others) (.dropStatus d) <
        firstIdx (awaitTailEvents self others) (.confirmSet d) := by
  intro d hd
  have hdself : ¬ (d = self) := by
    intro hx
    subst hx
    exact hself hd
  have hnm1 : TailEv.confirmSet self ∉ others.map TailEv.silence := by
    intro hmem
    rcases List.mem_map.mp hmem with ⟨x, -, hx⟩
    cases hx
  have hnm2 : TailEv.dropStatus d ∉ others.map TailEv.silence := by
    intro hmem
    rcases List.mem_map.mp hmem with ⟨x, -, hx⟩
    cases hx
  have hnm3 : TailEv.confirmSet d ∉ others.map TailEv.silence := by
    intro hmem
    rcases List.mem_map.mp hmem with ⟨x, -, hx⟩
    cases hx
  have hL : ∀ e : TailEv, e ∉ others.map TailEv.silence →
      firstIdx (awaitTailEvents self others) e =
        others.length + firstIdx (TailEv.setFromReceipt self :: TailEv.confirmSet self ::
          others.flatMap (fun x => [TailEv.dropStatus x, TailEv.confirmSet x])) e := by
    intro e he
    unfold awaitTailEvents
    rw [List.append_assoc, List.append_assoc, firstIdx_append_of_not_mem he,
      List.length_map]
    rfl
  have e1 : firstIdx (TailEv.setFromReceipt self :: TailEv.confirmSet self ::
      others.flatMap (fun x => [TailEv.dropStatus x, TailEv.confirmSet x]))
      (.confirmSet self) = 1 := by
    simp only [firstIdx]
    rw [if_neg (by simp)]
    simp
  have e2 : firstIdx (TailEv.setFromReceipt self :: TailEv.confirmSet self ::
      others.flatMap (fun x => [TailEv.dropStatus x, TailEv.confirmSet x]))
      (.dropStatus d) = 2 + firstIdx
      (others.flatMap (fun x => [TailEv.dropStatus x, TailEv.confirmSet x])) (.dropStatus d) := by
    simp only [firstIdx]
    rw [if_neg (by simp), if_neg (by simp)]
    omega
  have e3 : firstIdx (TailEv.setFromReceipt self :: TailEv.confirmSet self ::
      others.flatMap (fun x => [TailEv.dropStatus x, TailEv.confirmSet x]))
      (.confirmSet d) = 2 + firstIdx
      (others.flatMap (fun x => [TailEv.dropStatus x, TailEv.confirmSet x])) (.confirmSet d) := by
    have hcc : ¬ (TailEv.confirmSet self = TailEv.confirmSet d) := by
      simp
      intro hx
      exact hdself hx.symm
    simp only [firstIdx]
    rw [if_neg (by simp), if_neg hcc]
    omega
  constructor
  · rw [hL _ hnm1, hL _ hnm2, e1, e2]
    omega
  · rw [hL _ hnm2, hL _ hnm3, e2, e3]
    have := dropLoop_order hd hnd
    omega

/-- Witness for the amended C1 at a concrete pair of transactions. -/
theorem C1_drop_after_confirm_witness :
    firstIdx (awaitTailEvents 0 [1]) (.confirmSet 0) <
      firstIdx (awaitTailEvents 0 [1]) (.dropStatus 1) ∧
    firstIdx (awaitTailEvents 0 [1]) (.dropStatus 1) <
      firstIdx (awaitTailEvents 0 [1]) (.confirmSet 1) :=
  C1_drop_after_confirm 0 [1] (by decide) (by decide) 1 (by decide)

/-! ### Expanded trace steps and `_get_trace_gas` (transaction.py 1095-1134,
1335-1336)

`_get_trace_gas` consumes `self.trace`, the expanded trace: normalized
steps (numeric fields already native integers) augmented with the
annotations written by `_expand_trace`. -/

/-- A normalized step as consumed by `_expand_trace` (numeric fields are
native integers after `_get_trace`). -/
structure XStep where
  op : String
  pc : Nat
  depth : Int
  gas : Int
  gasCost : Int
  stack : List String
  memory : List String
  deriving DecidableEq, Repr

instance : Inhabited XStep := ⟨⟨"", 0, 0, 0, 0, [], []⟩⟩

/-- An expanded step: an `XStep` plus the annotations of `_expand_trace`
(transaction.py 830-842). -/
structure ExpStep extends XStep where
  address : String
  contractName : Option String
  fn : String
  jumpDepth : Int
  source : Option (String × Nat × Nat)
  deriving DecidableEq, Repr

instance : Inhabited ExpStep := ⟨⟨default, "", none, "", 0, none⟩⟩

/-- `_step_compare` (transaction.py 1335-1336). -/
def _step_compare (a b : ExpStep) : Bool :=
  a.depth = b.depth ∧ a.jumpDepth = b.jumpDepth

/-- `trace[i]` with an out-of-range default (used only in specification
formulas, under hypotheses that keep every access in range). -/
def stepAt (trace : List ExpStep) (i : Nat) : ExpStep :=
  (trace.get? i).getD default

/-- `trace[i - 1]` as Python evaluates it inside the loop (negative
wrap-around), with an out-of-range default. -/
def prevAt (trace : List ExpStep) (i : Nat) : ExpStep :=
  (pyGet? trace ((i : Int) - 1)).getD default

/-- `int(step["stack"][-2], 16)`: the value an `SSTORE` step writes. -/
def sstoreZeroVal? (s : ExpStep) : Option Nat :=
  (pyGet? s.stack (-2)).bind hexStrToNat?

/-- One iteration of the `for i in range(start, stop)` loop of
`_get_trace_gas` (transaction.py 1101-1127), on state
`(total_gas, internal_gas, is_internal)`; `none` when Python would raise
(an index out of range or a non-hex stack entry on an `SSTORE`). -/
def gasLoopStep (trace : List ExpStep) (start : Nat) (st : Int × Int × Bool)
    (i : Nat) : Option (Int × Int × Bool) :=
  match trace.get? i, trace.get? start with
  | some ti, some ts =>
    let total := st.1
    let internal := st.2.1
    let is_internal := st.2.2
    let upd : Option (Int × Bool) :=
      if is_internal ∧ ¬ (_step_compare ti ts = true) then
        if ti.depth > ts.depth then
          match pyGet? trace ((i : Int) - 1) with
          | some tp => some (internal - tp.gasCost, false)
          | none => none
        else some (internal, false)
      else if (¬ is_internal = true) ∧ _step_compare ti ts = true then
        some (internal, true)
      else some (internal, is_internal)
    match upd with
    | none => none
    | some (internal1, is_int1) =>
      let total2 := total + ti.gasCost
      let internal2 := if is_int1 then internal1 + ti.gasCost else internal1
      let refund : Option (Int × Int) :=
        if ti.op = "SSTORE" then
          match sstoreZeroVal? ti with
          | none => none
          | some v =>
            if v = 0 then
              some (total2 - 15000, if is_int1 then internal2 - 15000 else internal2)
            else some (total2, internal2)
        else some (total2, internal2)
      match refund with
      | none => none
      | some (total3, internal3) =>
        let total4 := if ti.op = "SELFDESTRUCT" then total3 - 24000 else total3
        let internal4 :=
          if ti.op = "SELFDESTRUCT" ∧ is_int1 = true then internal3 - 24000
          else internal3
        some (total4, internal4, is_int1)
  | _, _ => none

/-- The whole loop, over an explicit index list. -/
def gasLoop (trace : List ExpStep) (start : Nat) :
    List Nat → (Int × Int × Bool) → Option (Int × Int × Bool)
  | [], st => some st
  | i :: rest, st =>
    match gasLoopStep trace start st i with
    | none => none
    | some st2 => gasLoop trace start rest st2

/-- `TransactionReceipt._get_trace_gas(start, stop)` (transaction.py
1095-1134): run the loop over `range(start, stop)` from
`(0, 0, True)`, then add the calling step's gas cost back to both figures
when the range begins just inside a deeper call; returns
`(internal_gas, total_gas)`. -/
def _get_trace_gas (trace : List ExpStep) (start stop : Nat) :
    Option (Int × Int) :=
  match gasLoop trace start (List.range' start (stop - start)) (0, 0, true) with
  | none => none
  | some (total, internal, _) =>
    if start > 0 then
      match trace.get? start, trace.get? (start - 1) with
      | some ts, some tp =>
        if ts.depth > tp.depth then some (internal + tp.gasCost, total + tp.gasCost)
        else some (internal, total)
      | _, _ => none
    else some (internal, total)

/-! #### Specification-side closed forms for C5 -/

/-- Is step `i` in the same (depth, jumpDepth) context as step `start`? -/
def inCtx (trace : List ExpStep) (start i : Nat) : Bool :=
  _step_compare (stepAt trace i) (stepAt trace start)

/-- An `SSTORE` whose written value (second stack item from the top) is
zero — the flat-refund trigger, oblivious to the slot's prior value. -/
def isSStoreRefund (s : ExpStep) : Bool :=
  s.op = "SSTORE" ∧ sstoreZeroVal? s = some 0

/-- The add-back applied when the range starts just inside a call
(transaction.py 1130-1132). -/
def gasAddback (trace : List ExpStep) (start : Nat) : Int :=
  if 0 < start ∧ (stepAt trace (start - 1)).depth < (stepAt trace start).depth then
    (stepAt trace (start - 1)).gasCost
  else 0

/-- Net contribution of step `i` to `total_gas`: its gas cost, minus a
flat 15000 if it is a zero-writing `SSTORE`, minus a flat 24000 if it is a
`SELFDESTRUCT`. -/
def dTot (trace : List ExpStep) (i : Nat) : Int :=
  (stepAt trace i).gasCost - (if isSStoreRefund (stepAt trace i) then 15000 else 0) -
    (if (stepAt trace i).op = "SELFDESTRUCT" then 24000 else 0)

/-- Net contribution of step `i` to `internal_gas`, given the
`is_internal` flag `c` in force when the iteration begins. -/
def dInt (trace : List ExpStep) (start : Nat) (c : Bool) (i : Nat) : Int :=
  (if inCtx trace start i then dTot trace i else 0) -
    (if c = true ∧ inCtx trace start i = false ∧
        (stepAt trace start).depth < (stepAt trace i).depth then
      (prevAt trace i).gasCost
    else 0)

/-- The `is_internal` flag in force when iteration `i` of a loop that
started at `start` begins. -/
def flagAt (trace : List ExpStep) (start i : Nat) : Bool :=
  if i = start then true else inCtx trace start (i - 1)

/-- Total gas over `[start, stop)` in the shape of the claim: the sum of
gas costs, a flat 15000 refund per zero-writing `SSTORE`, a flat 24000 per
`SELFDESTRUCT`, plus the add-back. -/
def totalGasSpec (trace : List ExpStep) (start stop : Nat) : Int :=
  ((List.range' start (stop - start)).map (fun i => (stepAt trace i).gasCost)).sum -
    15000 * (((List.range' start (stop - start)).filter
      (fun i => isSStoreRefund (stepAt trace i))).length : Int) -
    24000 * (((List.range' start (stop - start)).filter
      (fun i => (stepAt trace i).op = "SELFDESTRUCT")).length : Int) +
    gasAddback trace start

/-- Internal gas over `[start, stop)`: per-step contributions under the
deterministic `is_internal` flag, plus the same add-back. -/
def internalGasSpec (trace : List ExpStep) (start stop : Nat) : Int :=
  ((List.range' start (stop - start)).map
    (fun i => dInt trace start (flagAt trace start i) i)).sum +
    gasAddback trace start

/-! #### Lemmas for C5 -/

theorem get?_stepAt {trace : List ExpStep} {i : Nat} (h : i < trace.length) :
    trace.get? i = some (stepAt trace i) := by
  unfold stepAt
  rw [List.get?_eq_get h]
  rfl

theorem pyGet?_prev_isSome {trace : List ExpStep} {i : Nat}
    (hne : trace ≠ []) (hi : i < trace.length) :
    pyGet? trace ((i : Int) - 1) = some (prevAt trace i) := by
  unfold prevAt
  cases i with
  | zero =>
    unfold pyGet?
    have hlen : 0 < trace.length := List.length_pos.mpr hne
    simp only [Nat.cast_zero, zero_sub]
    rw [if_pos (by omega), if_pos (by simpa using hlen)]
    have h1 : (-(-1 : Int)).toNat = 1 := by decide
    rw [h1]
    rw [List.get?_eq_get (by omega)]
    rfl
  | succ n =>
    unfold pyGet?
    rw [if_neg (by push_cast; omega)]
    have h2 : (((n + 1 : Nat) : Int) - 1).toNat = n := by omega
    rw [h2, List.get?_eq_get (by omega)]
    rfl

theorem gasLoopStep_eval (trace : List ExpStep) (start i : Nat) (t g : Int) (c : Bool)
    (hi : i < trace.length) (hs : start < trace.length)
    (hwf : (stepAt trace i).op = "SSTORE" →
      (sstoreZeroVal? (stepAt trace i)).isSome = true) :
    gasLoopStep trace start (t, g, c) i =
      some (t + dTot trace i, g + dInt trace start c i, inCtx trace start i) := by
  have hne : trace ≠ [] := by
    intro hx
    rw [hx] at hi
    simp at hi
  have hgi := get?_stepAt hi
  have hgs := get?_stepAt hs
  have hgp := pyGet?_prev_isSome hne hi
  unfold gasLoopStep
  rw [hgi, hgs, hgp]
  by_cases hss : (stepAt trace i).op = "SSTORE"
  · have hsd : ¬ ((stepAt trace i).op = "SELFDESTRUCT") := by rw [hss]; decide
    obtain ⟨v, hv⟩ := Option.isSome_iff_exists.mp (hwf hss)
    by_cases hv0 : v = 0
    · subst hv0
      rcases c <;>
        by_cases hcmp : _step_compare (stepAt trace i) (stepAt trace start) = true <;>
        by_cases hdep : (stepAt trace start).depth < (stepAt trace i).depth <;>
        simp [hss, hsd, hv, hcmp, hdep, dInt, dTot, inCtx, isSStoreRefund,
          Prod.ext_iff] <;>
        omega
    · rcases c <;>
        by_cases hcmp : _step_compare (stepAt trace i) (stepAt trace start) = true <;>
        by_cases hdep : (stepAt trace start).depth < (stepAt trace i).depth <;>
        simp [hss, hsd, hv, hv0, hcmp, hdep, dInt, dTot, inCtx, isSStoreRefund,
          Prod.ext_iff] <;>
        omega
  · by_cases hsd : (stepAt trace i).op = "SELFDESTRUCT" <;>
      rcases c <;>
      by_cases hcmp : _step_compare (stepAt trace i) (stepAt trace start) = true <;>
      by_cases hdep : (stepAt trace start).depth < (stepAt trace i).depth <;>
      simp [hss, hsd, hcmp, hdep, dInt, dTot, inCtx, isSStoreRefund, Prod.ext_iff] <;>
      omega

theorem gasLoop_append (trace : List ExpStep) (start : Nat) (l1 l2 : List Nat)
    (st : Int × Int × Bool) :
    gasLoop trace start (l1 ++ l2) st =
      (gasLoop trace start l1 st).bind (gasLoop trace start l2) := by
  induction l1 generalizing st with
  | nil => rfl
  | cons a rest ih =>
    rw [List.cons_append, gasLoop, gasLoop]
    cases gasLoopStep trace start st a with
    | none => rfl
    | some st2 => exact ih st2

/-- Partial total over the first `m` iterations (no add-back yet). -/
def TPart (trace : List ExpStep) (start m : Nat) : Int :=
  ((List.range' start m).map (dTot trace)).sum

/-- Partial internal figure over the first `m` iterations. -/
def IPart (trace : List ExpStep) (start m : Nat) : Int :=
  ((List.range' start m).map
    (fun i => dInt trace start (flagAt trace start i) i)).sum

/-- The `is_internal` flag after `m` iterations. -/
def CPart (trace : List ExpStep) (start m : Nat) : Bool :=
  if m = 0 then true else inCtx trace start (start + m - 1)

theorem gasLoop_spec (trace : List ExpStep) (start : Nat)
    (hs : start < trace.length) :
    ∀ m, start + m ≤ trace.length →
    (∀ i ∈ List.range' start m, (stepAt trace i).op = "SSTORE" →
      (sstoreZeroVal? (stepAt trace i)).isSome = true) →
    gasLoop trace start (List.range' start m) (0, 0, true) =
      some (TPart trace start m, IPart trace start m, CPart trace start m) := by
  intro m
  induction m with
  | zero =>
    intro _ _
    simp [gasLoop, TPart, IPart, CPart]
  | succ m ih =>
    intro hlen hwf
    have hwfm : ∀ i ∈ List.range' start m, (stepAt trace i).op = "SSTORE" →
        (sstoreZeroVal? (stepAt trace i)).isSome = true := by
      intro i hi hop
      refine hwf i ?_ hop
      rw [List.range'_concat]
      exact List.mem_append_left _ hi
    have hwfend : (stepAt trace (start + m)).op = "SSTORE" →
        (sstoreZeroVal? (stepAt trace (start + m))).isSome = true := by
      intro hop
      refine hwf (start + m) ?_ hop
      rw [List.range'_concat]
      refine List.mem_append_right _ ?_
      simp
    rw [List.range'_concat, gasLoop_append, ih (by omega) hwfm, Option.some_bind]
    have hflag : flagAt trace start (start + m) = CPart trace start m := by
      unfold flagAt CPart
      by_cases hm : m = 0
      · subst hm
        simp
      · rw [if_neg (by omega), if_neg hm]
    simp only [one_mul]
    have hstep := gasLoopStep_eval trace start (start + m) (TPart trace start m)
      (IPart trace start m) (CPart trace start m) (by omega) hs hwfend
    simp only [gasLoop, hstep]
    have hT : TPart trace start (m + 1) = TPart trace start m + dTot trace (start + m) := by
      unfold TPart
      rw [List.range'_concat, List.map_append, List.sum_append]
      simp
    have hI : IPart trace start (m + 1) =
        IPart trace start m + dInt trace start (CPart trace start m) (start + m) := by
      unfold IPart
      rw [List.range'_concat, List.map_append, List.sum_append]
      simp [hflag]
    have hC : CPart trace start (m + 1) = inCtx trace start (start + m) := by
      unfold CPart
      rw [if_neg (by omega)]
      congr 1
    rw [hT, hI, hC]

/-- Reshaping of the per-step totals into the claim's form: gas-cost sum
minus a flat 15000 per refunding `SSTORE` minus a flat 24000 per
`SELFDESTRUCT`. -/
theorem sum_dTot (trace : List ExpStep) (l : List Nat) :
    (l.map (dTot trace)).sum =
      (l.map (fun i => (stepAt trace i).gasCost)).sum -
        15000 * ((l.filter (fun i => isSStoreRefund (stepAt trace i))).length : Int) -
        24000 * ((l.filter (fun i => (stepAt trace i).op = "SELFDESTRUCT")).length : Int) := by
  induction l with
  | nil => simp
  | cons a rest ih =>
    simp only [List.map_cons, List.sum_cons, List.filter_cons]
    by_cases hP : isSStoreRefund (stepAt trace a) <;>
      by_cases hQ : (stepAt trace a).op = "SELFDESTRUCT" <;>
      simp [hP, hQ, dTot, ih] <;> push_cast <;> ring_nf <;> omega

/-- C5: `_get_trace_gas(start, stop)` over a well-formed range returns
exactly `(internal, total)` where the total nets in the flat 15000 refund
for each `SSTORE` writing zero (no prior-value consultation), the flat
24000 refund for each `SELFDESTRUCT`, and — when the range begins just
inside a newly-entered call (`start > 0` and the step at `start` is
deeper than its predecessor) — the previous step's gas cost added back to
both figures. -/
theorem C5_gas_range (trace : List ExpStep) (start stop : Nat)
    (h1 : start < stop) (h2 : stop ≤ trace.length)
    (hwf : ∀ i ∈ List.range' start (stop - start), (stepAt trace i).op = "SSTORE" →
      (sstoreZeroVal? (stepAt trace i)).isSome = true) :
    _get_trace_gas trace start stop =
      some (internalGasSpec trace start stop, totalGasSpec trace start stop) := by
  have hs : start < trace.length := by omega
  have hred : _get_trace_gas trace start stop =
      (if start > 0 then
        match trace.get? start, trace.get? (start - 1) with
        | some ts, some tp =>
          if ts.depth > tp.depth then
            some (IPart trace start (stop - start) + tp.gasCost,
              TPart trace start (stop - start) + tp.gasCost)
          else some (IPart trace start (stop - start), TPart trace start (stop - start))
        | _, _ => none
      else some (IPart trace start (stop - start), TPart trace start (stop - start))) := by
    unfold _get_trace_gas
    rw [gasLoop_spec trace start hs (stop - start) (by omega) hwf]
  have hTshape : totalGasSpec trace start stop =
      TPart trace start (stop - start) + gasAddback trace start := by
    unfold totalGasSpec TPart
    rw [sum_dTot]
  have hIshape : internalGasSpec trace start stop =
      IPart trace start (stop - start) + gasAddback trace start := by
    unfold internalGasSpec IPart
    rfl
  by_cases h0 : start > 0
  · have hred2 : _get_trace_gas trace start stop =
        (if (stepAt trace start).depth > (stepAt trace (start - 1)).depth then
          some (IPart trace start (stop - start) + (stepAt trace (start - 1)).gasCost,
            TPart trace start (stop - start) + (stepAt trace (start - 1)).gasCost)
        else some (IPart trace start (stop - start), TPart trace start (stop - start))) := by
      rw [hred, if_pos h0, get?_stepAt hs,
        get?_stepAt (show start - 1 < trace.length by omega)]
    rw [hred2]
    by_cases hdep : (stepAt trace start).depth > (stepAt trace (start - 1)).depth
    · rw [if_pos hdep]
      have hab : gasAddback trace start = (stepAt trace (start - 1)).gasCost := by
        unfold gasAddback
        rw [if_pos ⟨h0, hdep⟩]
      rw [hTshape, hIshape, hab]
    · rw [if_neg hdep]
      have hab : gasAddback trace start = 0 := by
        unfold gasAddback
        rw [if_neg (by push_neg; intro _; omega)]
      rw [hTshape, hIshape, hab]
      simp
  · rw [hred, if_neg h0]
    have hab : gasAddback trace start = 0 := by
      unfold gasAddback
      rw [if_neg (by push_neg; intro hx; omega)]
    rw [hTshape, hIshape, hab]
    simp

/-- A bare expanded step for concrete gas fixtures. -/
def mkGasStep (op : String) (depth jumpDepth gasCost : Int) (stack : List String) :
    ExpStep :=
  { op := op, pc := 0, depth := depth, gas := 0, gasCost := gasCost, stack := stack,
    memory := [], address := "a", contractName := none, fn := "f",
    jumpDepth := jumpDepth, source := none }

/-- 32 zero bytes as 64 hex digits. -/
def zero64 : String := String.mk (List.replicate 64 '0')

/-- A fixture trace: a call is entered at index 2, an `SSTORE` writes zero
(second stack item from the top) and a `SELFDESTRUCT` executes. -/
def gasSampleTrace : List ExpStep :=
  [mkGasStep "PUSH1" 0 0 3 [], mkGasStep "CALL" 0 0 700 [],
   mkGasStep "SSTORE" 1 0 5000 ["aa", zero64, "05"],
   mkGasStep "PUSH1" 1 0 3 [], mkGasStep "STOP" 0 0 0 [],
   mkGasStep "SELFDESTRUCT" 0 0 5000 []]

/-- Witness for C5 over the whole fixture range and over the range that
begins just inside the entered call (exercising the add-back). -/
theorem C5_gas_range_witness :
    _get_trace_gas gasSampleTrace 0 6 =
      some (internalGasSpec gasSampleTrace 0 6, totalGasSpec gasSampleTrace 0 6) ∧
    _get_trace_gas gasSampleTrace 2 4 =
      some (internalGasSpec gasSampleTrace 2 4, totalGasSpec gasSampleTrace 2 4) :=
  ⟨C5_gas_range gasSampleTrace 0 6 (by decide) (by decide) (by decide),
   C5_gas_range gasSampleTrace 2 4 (by decide) (by decide) (by decide)⟩

/-! ### `_expand_trace` (transaction.py 830-1035)

The expansion walks the normalized trace, reconstructing call contexts and
subcalls.  The Contract Registry (`state._find_contract` plus the contract
build artifacts) appears as an association-list oracle; ABI decoding of
call inputs is an oracle function.  Faithfully modelled: the origin/depth
adjustment, the subcall construction (from/to/op/value/function/inputs/
calldata), the precompile merge, the per-step annotation, internal
transfers, new contracts, and the jump handling with its `pc_map` guards.
Skipped, as no claim touches them: the coverage accumulation (transaction.py
876, 905, 1002-1016), the return-data / revert-message enrichment of
subcall records (944-956, 964-993), and the `coverage._add_transaction`
call.  `EthAddress` checksumming is left to the oracle's keys (precompile
addresses contain no letters, so the case-insensitive claim is
unaffected). -/

/-- A `pcMap` entry, restricted to the keys the modelled paths read. -/
structure PcEntry where
  path : Option Nat
  offset : Nat × Nat
  fn : Option String
  jump : Option String
  deriving DecidableEq, Repr

/-- What the Contract Registry provides for one known contract. -/
structure ContractInfo where
  name : String
  /-- `contract.get_method(sig)` -/
  methods : List (String × String)
  /-- `contract.get_method_object(sig)`, as the function's input signature -/
  methodObjs : List (String × String)
  /-- `contract._build.get("pcMap")` -/
  pc_map : Option (List (Nat × PcEntry))
  /-- `contract._build.get("allSourcePaths")` -/
  path_map : Option (List (Nat × String))
  deriving DecidableEq, Repr

/-- One call context: the value of `last_map[depth]`
(transaction.py 1449-1474). -/
structure LastMap where
  address : String
  jumpDepth : Int
  name : Option String
  internal_calls : List String
  function : Option String
  pc_map : Option (List (Nat × PcEntry))
  path_map : Option (List (Nat × String))
  deriving DecidableEq, Repr

/-- `EthAddress(...)`: normalize a bare 40-hex-digit address to its
`0x`-prefixed form (the checksum casing EthAddress also applies is not
modelled; the oracle is keyed by the prefixed form). -/
def ethAddress (s : String) : String :=
  if startsWith0x s then s else "0x" ++ s

/-- `_get_last_map(address, sig)` (transaction.py 1449-1474), with the
coverage flags omitted. -/
def _get_last_map (registry : List (String × ContractInfo)) (address sig : String) :
    LastMap :=
  match registry.lookup (ethAddress address) with
  | some c =>
    let full_fn_name :=
      match c.methods.lookup sig with
      | some m => c.name ++ "." ++ m
      | none => c.name
    { address := ethAddress address, jumpDepth := 0, name := some c.name,
      internal_calls := [full_fn_name], function := c.methodObjs.lookup sig,
      pc_map := c.pc_map, path_map := c.path_map }
  | none =>
    { address := ethAddress address, jumpDepth := 0, name := none,
      internal_calls := ["<UnknownContract>." ++ sig], function := none,
      pc_map := none, path_map := none }

/-- Does the two-character tail denote one of the 18 precompile addresses
(`(?:0[1-9]|1[0-8])` in the pattern)? -/
def precompileSuffix (c1 c2 : Char) : Bool :=
  (c1 = '0' ∧ ('1' ≤ c2 ∧ c2 ≤ '9')) ∨ (c1 = '1' ∧ ('0' ≤ c2 ∧ c2 ≤ '8'))

/-- Does the pattern `0x0{38}(?:0[1-9]|1[0-8])` match at the head of the
character list? -/
def precompileMatchAt (l : List Char) : Bool :=
  match l with
  | '0' :: 'x' :: rest =>
    decide (rest.take 38 = List.replicate 38 '0') &&
      (match rest.drop 38 with
       | c1 :: c2 :: _ => precompileSuffix c1 c2
       | _ => false)
  | _ => false

/-- `re.search` of the precompile pattern: a match at any position. -/
def precompileSearchL : List Char → Bool
  | [] => false
  | c :: rest => precompileMatchAt (c :: rest) || precompileSearchL rest

/-- `precompile_contract.search(str(addr)) is not None`
(transaction.py 877, 1477-1479). -/
def precompileSearch (s : String) : Bool :=
  precompileSearchL s.toList

/-- One subcall record (only the keys the modelled paths write). -/
structure Subcall where
  fromAddr : String
  toAddr : String
  op : String
  value : Option Nat
  function : Option String
  inputs : Option (List (String × String))
  calldata : Option String
  deriving DecidableEq, Repr

/-- `_is_call_to_precompile(subcall)` (transaction.py 1477-1479). -/
def _is_call_to_precompile (s : Subcall) : Bool :=
  precompileSearch s.toAddr

/-- The public `subcalls` accessor body (transaction.py 330-331): filter
out calls to precompiles. -/
def subcallsAccessor (subcalls : List Subcall) : List Subcall :=
  subcalls.filter (fun s => ¬ _is_call_to_precompile s)

/-- One internal transfer (transaction.py 1037-1043). -/
structure Xfer where
  fromAddr : String
  toAddr : String
  value : Nat
  deriving DecidableEq, Repr

/-- Association-list update, the model of `d[k] = v`. -/
def assocSet {α β : Type} [BEq α] : List (α × β) → α → β → List (α × β)
  | [], k, v => [(k, v)]
  | (k2, v2) :: rest, k, v =>
    if k2 == k then (k, v) :: rest else (k2, v2) :: assocSet rest k v

/-- The mutable state of the expansion walk. -/
structure ExpandState where
  last_map : List (Int × LastMap)
  subcalls : List Subcall
  new_contracts : List String
  internal_transfers : List Xfer
  out : List ExpStep
  call_cost : Int
  deriving DecidableEq, Repr

/-- The registry and decoding oracles consumed by the expansion. -/
structure ExpandEnv where
  registry : List (String × ContractInfo)
  /-- `fn.decode_input(calldata)` zipped with the input names
  (transaction.py 916-917); `none` re-creates the decode failure. -/
  decodeInput : String → String → Option (List (String × String))

/-- `hexbytes_to_hexstring`: `0x` plus lowercase hex digits. -/
def hexstringOf (l : List Char) : String :=
  "0x" ++ String.mk (l.map hexLower)

/-- The call opcodes that trigger subcall detection without a depth
increase (transaction.py 878). -/
def call_opcodes : List String := ["CALL", "STATICCALL", "DELEGATECALL"]

/-- The precompile merge (transaction.py 924-926): when the just-appended
subcall's `from` matches the precompile pattern, pop the second-to-last
record and reattribute the last one's `from` to the popped record's
`from`; `none` when `pop(-2)` would raise. -/
def applyPrecompileMerge (l : List Subcall) : Option (List Subcall) :=
  match l.getLast? with
  | none => none
  | some last =>
    if precompileSearch last.fromAddr then
      if l.length ≥ 2 then
        match l.get? (l.length - 2) with
        | some popped =>
          some (l.take (l.length - 2) ++ [{ last with fromAddr := popped.fromAddr }])
        | none => none
      else none
    else some l

/-- The `CREATE`/`CREATE2` arm of the subcall extraction (transaction.py
887-906): callee address from the stack top of the step that returns to
the caller's depth, a `<CREATE>` pseudo-selector, no calldata, the new
contract recorded, and a nonzero endowment recorded as a transfer. -/
def subcallCreateInfo (trace : List XStep) (st : ExpandState) (i : Nat)
    (prev : XStep) (stepAddr : String) :
    Option (String × String × Option (List Char) × List String × List Xfer) := do
  let outStep ← (trace.drop i).find? (fun x => x.depth = prev.depth)
  let topEntry ← pyGet? outStep.stack (-1)
  let address := strTakeRight topEntry 40
  let valueEntry ← pyGet? prev.stack (-1)
  let v ← hexStrToNat? valueEntry
  let xfers := if v ≠ 0 then
      st.internal_transfers ++ [⟨ethAddress stepAddr, ethAddress address, v⟩]
    else st.internal_transfers
  pure (address, "<" ++ prev.op ++ ">", (none : Option (List Char)),
    st.new_contracts ++ [ethAddress address], xfers)

/-- The call-opcode arm of the subcall extraction (transaction.py
907-918): callee address and calldata slice from the caller's stack and
memory, selector from the first four calldata bytes. -/
def subcallCallInfo (st : ExpandState) (prev : XStep) :
    Option (String × String × Option (List Char) × List String × List Xfer) := do
  let stack_idx : Int := if prev.op = "CALL" ∨ prev.op = "CALLCODE" then -4 else -3
  let offsetEntry ← pyGet? prev.stack stack_idx
  let offset ← hexStrToNat? offsetEntry
  let lengthEntry ← pyGet? prev.stack (stack_idx - 1)
  let length ← hexStrToNat? lengthEntry
  let memChars := (prev.memory.foldl (fun a s => a ++ s.toList) [])
  let calldata := (memChars.drop (2 * offset)).take (2 * length)
  let sig := hexstringOf (calldata.take 8)
  let addrEntry ← pyGet? prev.stack (-2)
  pure (strTakeRight addrEntry 40, sig, some calldata, st.new_contracts,
    st.internal_transfers)

/-- transaction.py 919-920: a `CALL`/`CALLCODE` subcall also records the
transferred value from the caller's stack. -/
def subcallValue (prev : XStep) (base : Subcall) : Option Subcall :=
  if prev.op = "CALL" ∨ prev.op = "CALLCODE" then do
    let ve ← pyGet? prev.stack (-3)
    let v ← hexStrToNat? ve
    pure { base with value := some v }
  else pure base

/-- transaction.py 914-923: attach decoded inputs (or raw calldata) to
the subcall record. -/
def subcallDecorate (env : ExpandEnv) ( is_depth_increase : Bool)
    (newCtx : LastMap) (calldata : Option (List Char)) ( is_subcall : Bool)
    (base : Subcall) : Subcall :=
  let calldataNonempty := match calldata with
    | some (_ :: _) => true
    | _ => false
  if is_depth_increase && calldataNonempty && newCtx.function.isSome then
    match newCtx.function, calldata with
    | some fnSig, some cd =>
      match env.decodeInput fnSig (hexstringOf cd) with
      | some inputs => { base with function := some fnSig, inputs := some inputs }
      | none => { base with function := some fnSig, calldata := some (hexstringOf cd) }
    | _, _ => base
  else if calldataNonempty || is_subcall then
    { base with calldata := some (hexstringOf (calldata.getD [])) }
  else base

/-- `step["address"]` (transaction.py 885): the annotation written on the
previous iteration; out of range on the first step. -/
def subcallStepAddr (st : ExpandState) (i : Nat) : Option String :=
  if i = 0 then none else (st.out.get? (i - 1)).map (fun e => e.address)

/-- transaction.py 887-918: pick the extraction arm by the previous
step's opcode. -/
def subcallInfo (trace : List XStep) (st : ExpandState) (i : Nat)
    (prev : XStep) (stepAddr : String) :
    Option (String × String × Option (List Char) × List String × List Xfer) :=
  if prev.op = "CREATE" ∨ prev.op = "CREATE2" then
    subcallCreateInfo trace st i prev stepAddr
  else
    subcallCallInfo st prev

/-- Phase A of one iteration (transaction.py 880-926): detect a depth
increase or a just-executed call opcode, extract the callee address,
selector and calldata, record new contracts and the `CREATE` value
transfer, create the new call context on a depth increase, append the
subcall record, and merge precompile frames. -/
def expandSubcallPhase (env : ExpandEnv) (trace : List XStep) (st : ExpandState)
    (i : Nat) : Option ExpandState := do
  let ti ← trace.get? i
  let prev ← pyGet? trace ((i : Int) - 1)
  let is_depth_increase := decide (prev.depth < ti.depth)
  let is_subcall := decide (prev.op ∈ call_opcodes)
  if is_depth_increase = false ∧ is_subcall = false then
    pure st
  else
    let stepAddr ← subcallStepAddr st i
    let (address, sig, calldata, new_contracts, xfers) ←
      subcallInfo trace st i prev stepAddr
    let newCtx := _get_last_map env.registry address sig
    let last_map :=
      if is_depth_increase then assocSet st.last_map ti.depth newCtx else st.last_map
    let base : Subcall :=
      { fromAddr := stepAddr, toAddr := ethAddress address, op := prev.op, value := none,
        function := none, inputs := none, calldata := none }
    let base ← subcallValue prev base
    let base := subcallDecorate env is_depth_increase newCtx calldata is_subcall base
    let subcalls ← applyPrecompileMerge (st.subcalls ++ [base])
    pure { st with last_map := last_map, subcalls := subcalls,
                   new_contracts := new_contracts, internal_transfers := xfers }

/-- Phase B of one iteration (transaction.py 928-942): annotate the step
from the current depth's context (`KeyError` — `none` — when the depth has
no context), and record a nonzero-value `CALL` as an internal transfer. -/
def expandAnnotatePhase (trace : List XStep) (st : ExpandState) (i : Nat) :
    Option ExpandState := do
  let ti ← trace.get? i
  let last ← st.last_map.lookup ti.depth
  let fnName ← last.internal_calls.getLast?
  let es : ExpStep :=
    { toXStep := ti, address := last.address, contractName := last.name,
      fn := fnName, jumpDepth := last.jumpDepth, source := none }
  let st := { st with out := st.out ++ [es] }
  if ti.op = "CALL" then do
    let ve ← pyGet? ti.stack (-3)
    let v ← hexStrToNat? ve
    if v ≠ 0 then do
      let ae ← pyGet? ti.stack (-2)
      pure { st with internal_transfers :=
        st.internal_transfers ++ [⟨ethAddress last.address, ethAddress (strTakeRight ae 40), v⟩] }
    else pure st
  else pure st

/-- Replace the `source` annotation of the most recent output step
(`trace[i]["source"] = {...}`, transaction.py 997). -/
def setLastSource (out : List ExpStep) (src : String × Nat × Nat) : List ExpStep :=
  match out.getLast? with
  | none => out
  | some es => out.dropLast ++ [{ es with source := some src }]

/-- Phase C of one iteration (transaction.py 958-1032, minus the subcall
return/revert enrichment and coverage): look the step up in the context's
`pc_map` (`continue` on failure), resolve its source, and handle the
internal-jump annotations — a jump tagged `"i"` whose following step maps
to a function pushes that function and increments `jumpDepth` (the lookup
failures `continue`); any other jump tag pops and decrements only while
`jumpDepth > 0`. -/
def expandJumpPhase (trace : List XStep) (st : ExpandState) (i : Nat) :
    Option ExpandState := do
  let ti ← trace.get? i
  let last ← st.last_map.lookup ti.depth
  match last.pc_map with
  | none => pure st
  | some pcm =>
    match pcm.lookup ti.pc with
    | none => pure st
    | some pc =>
      match pc.path with
      | none => pure st
      | some path => do
        let pm ← last.path_map
        let fname ← pm.lookup path
        let st := { st with out := setLastSource st.out (fname, pc.offset) }
        match pc.fn with
        | none => pure st
        | some _ =>
          match pc.jump with
          | none => pure st
          | some j =>
            if j = "i" then
              match trace.get? (i + 1) with
              | none => pure st
              | some nxt =>
                match pcm.lookup nxt.pc with
                | none => pure st
                | some pe =>
                  match pe.fn with
                  | none => pure st
                  | some fn2 => do
                    let lastFn ← last.internal_calls.getLast?
                    if fn2 ≠ lastFn then
                      let ctx := { last with
                        internal_calls := last.internal_calls ++ [fn2],
                        jumpDepth := last.jumpDepth + 1 }
                      pure { st with last_map := assocSet st.last_map ti.depth ctx }
                    else pure st
            else
              if last.jumpDepth > 0 then
                if last.internal_calls = [] then none
                else
                  let ctx := { last with
                    internal_calls := last.internal_calls.dropLast,
                    jumpDepth := last.jumpDepth - 1 }
                  pure { st with last_map := assocSet st.last_map ti.depth ctx }
              else pure st

/-- One full iteration of the expansion loop. -/
def expandStep (env : ExpandEnv) (trace : List XStep) (st : ExpandState)
    (i : Nat) : Option ExpandState := do
  let st1 ← expandSubcallPhase env trace st i
  let st2 ← expandAnnotatePhase trace st1 i
  expandJumpPhase trace st2 i

/-- The `for i in range(len(trace))` loop. -/
def expandLoop (env : ExpandEnv) (trace : List XStep) :
    List Nat → ExpandState → Option ExpandState
  | [], st => some st
  | i :: rest, st =>
    match expandStep env trace st i with
    | none => none
    | some st2 => expandLoop env trace rest st2

/-- The ganache `<6.10.0` gas-cost shift (transaction.py 868-870). -/
def shiftGasCosts (l : List XStep) : List XStep :=
  match l.getLast? with
  | none => []
  | some lastStep =>
    ((l.zip (l.drop 1)).map (fun p => { p.1 with gasCost := p.2.gasCost })) ++
      [{ lastStep with gasCost := 0 }]

/-- `TransactionReceipt._expand_trace` (transaction.py 830-1035): the
deployment / empty-trace early return, the trace-origin detection with its
depth and gas-cost adjustments, and the main loop seeded with the
receiver's context.  Returns the final state, or `none` where Python would
raise. -/
def _expand_trace (env : ExpandEnv) (receiver : String) (inputData : String)
    (contract_address : Option String) (gas_used : Int) (trace : List XStep) :
    Option ExpandState :=
  if contract_address.isSome ∨ trace = [] then
    some { last_map := [], subcalls := [], new_contracts := [],
           internal_transfers := [], out := [], call_cost := 0 }
  else
    match trace.head?, trace.getLast? with
    | some t0, some tl =>
      let (call_cost, trace2) :=
        if t0.depth = 1 then
          (gas_used - t0.gas + tl.gas, trace.map (fun t => { t with depth := t.depth - 1 }))
        else if t0.gasCost ≥ 21000 then
          (t0.gasCost, shiftGasCosts trace)
        else
          (gas_used - t0.gas + tl.gas, trace)
      let st0 : ExpandState :=
        { last_map := [(0, _get_last_map env.registry receiver (inputData.take 10))],
          subcalls := [], new_contracts := [], internal_transfers := [], out := [],
          call_cost := call_cost }
      expandLoop env trace2 (List.range trace2.length) st0
    | _, _ => none

/-! #### C6: precompile-targeted subcalls never reach the public list -/

/-- C6: for every successful expansion, no element of the public
`subcalls` list (the accessor filters `_is_call_to_precompile`) targets a
precompile address; and the expansion-time merge, when the just-appended
subcall's `from` matches the precompile pattern, removes the second-to-
last pending record and reattributes the last record's `from` to the
removed record's `from`. -/
theorem C6_precompile_subcalls :
    (∀ (env : ExpandEnv) (receiver inputData : String)
       (contract_address : Option String) (gas_used : Int) (trace : List XStep)
       (st : ExpandState),
       _expand_trace env receiver inputData contract_address gas_used trace = some st →
       ∀ s ∈ subcallsAccessor st.subcalls, _is_call_to_precompile s = false) ∧
    (∀ (pre : List Subcall) (a b : Subcall),
       precompileSearch b.fromAddr = true →
       applyPrecompileMerge (pre ++ [a, b]) =
         some (pre ++ [{ b with fromAddr := a.fromAddr }])) := by
  constructor
  · intro env receiver inputData contract_address gas_used trace st _ s hs
    unfold subcallsAccessor at hs
    have := List.mem_filter.mp hs
    simpa using this.2
  · intro pre a b hmatch
    have hsplit : pre ++ [a, b] = (pre ++ [a]) ++ [b] := by simp
    have hlast : (pre ++ [a, b]).getLast? = some b := by
      rw [hsplit]
      exact List.getLast?_concat _
    have hlen : (pre ++ [a, b]).length = pre.length + 2 := by simp
    have hget : (pre ++ [a, b]).get? ((pre ++ [a, b]).length - 2) = some a := by
      rw [hlen]
      have h2 : pre.length + 2 - 2 = pre.length := by omega
      rw [h2, List.get?_append_right (le_refl _)]
      simp
    have htake : (pre ++ [a, b]).take ((pre ++ [a, b]).length - 2) = pre := by
      rw [hlen]
      have h2 : pre.length + 2 - 2 = pre.length := by omega
      rw [h2, List.take_left]
    unfold applyPrecompileMerge
    simp only [hlast]
    rw [if_pos hmatch, if_pos (by rw [hlen]; omega)]
    simp only [hget, htake]

/-- Fixture for the C6 witness: a depth-0 `CALL` to the `ecrecover`
precompile followed by a depth-increasing `CALL` to a known contract. -/
def c6CallStack (callee : String) : List String :=
  [zero64, zero64,
   String.mk (List.replicate 63 '0' ++ ['4']),
   zero64, zero64, callee,
   String.mk (List.replicate 60 '0' ++ ['f', 'f', 'f', 'f'])]

/-- The stack entry holding the contract address `0xbb…bb`. -/
def c6BEntry : String := String.mk (List.replicate 24 '0' ++ List.replicate 40 'b')

/-- The stack entry holding the `ecrecover` precompile address. -/
def c6PreEntry : String := String.mk (List.replicate 62 '0' ++ ['0', '4'])

/-- One 32-byte memory word starting `abcd`. -/
def c6Mem : List String := [String.mk ('a' :: 'b' :: 'c' :: 'd' :: List.replicate 60 '0')]

/-- A small fixture step. -/
def mkXStep (op : String) (pc : Nat) (depth : Int) (stack : List String)
    (memory : List String) : XStep :=
  { op := op, pc := pc, depth := depth, gas := 100, gasCost := 3, stack := stack,
    memory := memory }

/-- Fixture trace: `CALL` to the precompile without a depth change, then a
`CALL` into a contract with a depth increase. -/
def c6Trace : List XStep :=
  [mkXStep "PUSH1" 0 0 [] [],
   mkXStep "CALL" 1 0 (c6CallStack c6PreEntry) c6Mem,
   mkXStep "PUSH1" 2 0 [] [],
   mkXStep "CALL" 3 0 (c6CallStack c6BEntry) c6Mem,
   mkXStep "JUMPDEST" 4 1 [] [],
   mkXStep "STOP" 5 0 [] []]

/-- Oracle with no known contracts and failing ABI decodes. -/
def c6Env : ExpandEnv := { registry := [], decodeInput := fun _ _ => none }

/-- The concrete expansion result for the C6/C8 witnesses. -/
def c6Res : ExpandState :=
  (_expand_trace c6Env "0xAAA" "0x12345678" none 30000 c6Trace).getD
    ⟨[], [], [], [], [], 0⟩

/-- The raw subcall list of the fixture does contain the precompile-
targeted record, so the accessor's filtering is exercised. -/
theorem c6Res_has_precompile_subcall :
    (c6Res.subcalls.map Subcall.toAddr) =
      ["0x0000000000000000000000000000000000000004",
       "0xbbbbbbbbbbbbbbbbbbbbbbbbbbbbbbbbbbbbbbbb"] := by
  decide

/-- Witness for C6: the surviving public subcall of the fixture is not
precompile-targeted, and the merge behaves as stated on a concrete pair. -/
theorem C6_precompile_subcalls_witness :
    _is_call_to_precompile
        { fromAddr := "0xAAA",
          toAddr := "0xbbbbbbbbbbbbbbbbbbbbbbbbbbbbbbbbbbbbbbbb", op := "CALL",
          value := some 0, function := none, inputs := none,
          calldata := some "0xabcd0000" } = false ∧
    applyPrecompileMerge
        [{ fromAddr := "0xAAA",
           toAddr := "0x0000000000000000000000000000000000000011", op := "STATICCALL",
           value := none, function := none, inputs := none, calldata := none },
         { fromAddr := "0x0000000000000000000000000000000000000011",
           toAddr := "0xCCC", op := "STATICCALL", value := none, function := none,
           inputs := none, calldata := none }] =
      some [{ fromAddr := "0xAAA", toAddr := "0xCCC", op := "STATICCALL",
              value := none, function := none, inputs := none, calldata := none }] :=
  ⟨C6_precompile_subcalls.1 c6Env "0xAAA" "0x12345678" none 30000 c6Trace c6Res
      (by decide) _ (by decide),
   C6_precompile_subcalls.2 []
     { fromAddr := "0xAAA", toAddr := "0x0000000000000000000000000000000000000011",
       op := "STATICCALL", value := none, function := none, inputs := none,
       calldata := none }
     { fromAddr := "0x0000000000000000000000000000000000000011", toAddr := "0xCCC",
       op := "STATICCALL", value := none, function := none, inputs := none,
       calldata := none }
     (by decide)⟩

/-! #### C8: jump-depth safety through the expansion -/

/-- C8's loop invariant: every annotated step has a non-negative jump
depth, and every call context's internal-call stack holds exactly
`jumpDepth + 1` entries — in particular it is never emptied below its
initial entry. -/
def ExpandInv (st : ExpandState) : Prop :=
  (∀ es ∈ st.out, 0 ≤ es.jumpDepth) ∧
  (∀ p ∈ st.last_map, 0 ≤ (Prod.snd p).jumpDepth ∧
    (Prod.snd p).internal_calls.length = (Prod.snd p).jumpDepth.toNat + 1)

theorem assocSet_mem {l : List (Int × LastMap)} {k : Int} {v : LastMap}
    {p : Int × LastMap} (h : p ∈ assocSet l k v) : p = (k, v) ∨ p ∈ l := by
  induction l with
  | nil =>
    simp [assocSet] at h
    exact Or.inl h
  | cons a rest ih =>
    obtain ⟨k2, v2⟩ := a
    rw [assocSet] at h
    by_cases hk : (k2 == k) = true
    · rw [if_pos hk] at h
      rcases List.mem_cons.mp h with h1 | h1
      · exact Or.inl h1
      · exact Or.inr (List.mem_cons_of_mem _ h1)
    · rw [if_neg hk] at h
      rcases List.mem_cons.mp h with h1 | h1
      · subst h1
        exact Or.inr (List.mem_cons_self _ _)
      · rcases ih h1 with h2 | h2
        · exact Or.inl h2
        · exact Or.inr (List.mem_cons_of_mem _ h2)

theorem lookup_mem {l : List (Int × LastMap)} {k : Int} {v : LastMap}
    (h : l.lookup k = some v) : (k, v) ∈ l := by
  induction l with
  | nil => cases h
  | cons a rest ih =>
    obtain ⟨k2, v2⟩ := a
    rw [List.lookup] at h
    cases hk : (k == k2) with
    | true =>
      rw [hk] at h
      simp only at h
      cases h
      have : k = k2 := eq_of_beq hk
      subst this
      exact List.mem_cons_self _ _
    | false =>
      rw [hk] at h
      simp only at h
      exact List.mem_cons_of_mem _ (ih h)

/-- A freshly built call context starts with jump depth 0 and a
single-entry internal-call stack. -/
theorem _get_last_map_shape (registry : List (String × ContractInfo))
    (address sig : String) :
    (_get_last_map registry address sig).jumpDepth = 0 ∧
    (_get_last_map registry address sig).internal_calls.length = 1 := by
  unfold _get_last_map
  cases registry.lookup (ethAddress address) <;> simp

theorem setLastSource_jumpDepth {out : List ExpStep} {src : String × Nat × Nat}
    (h : ∀ es ∈ out, 0 ≤ es.jumpDepth) :
    ∀ es ∈ setLastSource out src, 0 ≤ es.jumpDepth := by
  intro es hes
  unfold setLastSource at hes
  cases hlast : out.getLast? with
  | none =>
    rw [hlast] at hes
    exact h es hes
  | some e0 =>
    rw [hlast] at hes
    rcases List.mem_append.mp hes with h1 | h1
    · exact h es (List.dropLast_subset _ h1)
    · rw [List.mem_singleton] at h1
      subst h1
      have he0 : e0 ∈ out := by
        have hx : e0 ∈ out.getLast? := by rw [hlast]; rfl
        obtain ⟨hne, heq⟩ := List.mem_getLast?_eq_getLast hx
        rw [heq]
        exact List.getLast_mem hne
      exact h e0 he0

/-- Phase B preserves the invariant and never touches the contexts. -/
theorem expandAnnotatePhase_inv {trace : List XStep} {st : ExpandState} {i : Nat}
    {st' : ExpandState} (h : expandAnnotatePhase trace st i = some st')
    (hinv : ExpandInv st) : ExpandInv st' ∧ st'.last_map = st.last_map := by
  unfold expandAnnotatePhase at h
  cases hti : trace.get? i with
  | none =>
    simp only [hti, Option.bind_eq_bind, Option.none_bind] at h
    exact Option.noConfusion h
  | some ti =>
    simp only [hti, Option.bind_eq_bind, Option.some_bind] at h
    cases hlast : List.lookup ti.depth st.last_map with
    | none =>
      simp only [hlast, Option.none_bind] at h
      exact Option.noConfusion h
    | some last =>
      simp only [hlast, Option.some_bind] at h
      cases hfn : last.internal_calls.getLast? with
      | none =>
        simp only [hfn, Option.none_bind] at h
        exact Option.noConfusion h
      | some fnName =>
        simp only [hfn, Option.some_bind] at h
        have hjd : 0 ≤ last.jumpDepth := (hinv.2 _ (lookup_mem hlast)).1
        have hout : ∀ (x : ExpStep), x.jumpDepth = last.jumpDepth →
            ∀ es ∈ st.out ++ [x], 0 ≤ es.jumpDepth := by
          intro x hx es hes
          rcases List.mem_append.mp hes with h1 | h1
          · exact hinv.1 es h1
          · rw [List.mem_singleton] at h1
            subst h1
            rw [hx]
            exact hjd
        by_cases hcall : ti.op = "CALL"
        · rw [if_pos hcall] at h
          cases hve : pyGet? ti.stack (-3) with
          | none =>
            simp only [hve, Option.none_bind] at h
            exact Option.noConfusion h
          | some ve =>
            simp only [hve, Option.some_bind] at h
            cases hv : hexStrToNat? ve with
            | none =>
              simp only [hv, Option.none_bind] at h
              exact Option.noConfusion h
            | some v =>
              simp only [hv, Option.some_bind] at h
              by_cases hz : v ≠ 0
              · rw [if_pos hz] at h
                cases hae : pyGet? ti.stack (-2) with
                | none =>
                  simp only [hae, Option.none_bind] at h
                  exact Option.noConfusion h
                | some ae =>
                  simp only [hae, Option.some_bind] at h
                  cases h
                  exact ⟨⟨hout _ rfl, hinv.2⟩, rfl⟩
              · rw [if_neg hz] at h
                cases h
                exact ⟨⟨hout _ rfl, hinv.2⟩, rfl⟩
        · rw [if_neg hcall] at h
          cases h
          exact ⟨⟨hout _ rfl, hinv.2⟩, rfl⟩

/-- Phase A preserves the invariant and never touches the output list. -/
theorem expandSubcallPhase_inv {env : ExpandEnv} {trace : List XStep}
    {st : ExpandState} {i : Nat} {st' : ExpandState}
    (h : expandSubcallPhase env trace st i = some st')
    (hinv : ExpandInv st) : ExpandInv st' ∧ st'.out = st.out := by
  unfold expandSubcallPhase at h
  cases hti : trace.get? i with
  | none =>
    simp only [hti, Option.bind_eq_bind, Option.none_bind] at h
    exact Option.noConfusion h
  | some ti =>
    simp only [hti, Option.bind_eq_bind, Option.some_bind] at h
    cases hprev : pyGet? trace ((i : Int) - 1) with
    | none =>
      simp only [hprev, Option.none_bind] at h
      exact Option.noConfusion h
    | some prev =>
      simp only [hprev, Option.some_bind] at h
      by_cases hskip : decide (prev.depth < ti.depth) = false ∧
          decide (prev.op ∈ call_opcodes) = false
      · rw [if_pos hskip] at h
        cases h
        exact ⟨hinv, rfl⟩
      · rw [if_neg hskip] at h
        cases haddr : subcallStepAddr st i with
        | none =>
          simp only [haddr, Option.none_bind] at h
          exact Option.noConfusion h
        | some stepAddr =>
          simp only [haddr, Option.some_bind] at h
          cases hinfo : subcallInfo trace st i prev stepAddr with
          | none =>
            rw [hinfo] at h
            simp only [Option.none_bind] at h
            exact Option.noConfusion h
          | some tup =>
            rw [hinfo] at h
            simp only [Option.some_bind] at h
            obtain ⟨address, sig, calldata, ncs, xfs⟩ := tup
            simp only at h
            cases hbase : subcallValue prev
                { fromAddr := stepAddr, toAddr := ethAddress address, op := prev.op,
                  value := none, function := none, inputs := none, calldata := none } with
            | none =>
              rw [hbase] at h
              simp only [Option.none_bind] at h
              exact Option.noConfusion h
            | some base0 =>
              rw [hbase] at h
              simp only [Option.some_bind] at h
              cases hmerge : applyPrecompileMerge (st.subcalls ++
                  [subcallDecorate env (decide (prev.depth < ti.depth))
                    (_get_last_map env.registry address sig) calldata
                    (decide (prev.op ∈ call_opcodes)) base0]) with
              | none =>
                rw [hmerge] at h
                simp only [Option.none_bind] at h
                exact Option.noConfusion h
              | some subcalls =>
                rw [hmerge] at h
                simp only [Option.some_bind] at h
                cases h
                refine ⟨⟨hinv.1, ?_⟩, rfl⟩
                intro p hp
                by_cases hdi : decide (prev.depth < ti.depth) = true
                · rw [if_pos hdi] at hp
                  rcases assocSet_mem hp with h1 | h1
                  · subst h1
                    exact ⟨le_of_eq (_get_last_map_shape env.registry address sig).1.symm,
                      by rw [(_get_last_map_shape env.registry address sig).2,
                             (_get_last_map_shape env.registry address sig).1]; rfl⟩
                  · exact hinv.2 p h1
                · rw [if_neg hdi] at hp
                  exact hinv.2 p hp

/-- Phase C preserves the invariant: an `i`-tagged jump pushes one
internal call and increments the context's jump depth, and a return-tagged
jump pops and decrements only while the depth is positive. -/
theorem expandJumpPhase_inv {trace : List XStep} {st : ExpandState} {i : Nat}
    {st' : ExpandState} (h : expandJumpPhase trace st i = some st')
    (hinv : ExpandInv st) : ExpandInv st' := by
  unfold expandJumpPhase at h
  cases hti : trace.get? i with
  | none =>
    simp only [hti, Option.bind_eq_bind, Option.none_bind] at h
    exact Option.noConfusion h
  | some ti =>
    simp only [hti, Option.bind_eq_bind, Option.some_bind] at h
    cases hlast : List.lookup ti.depth st.last_map with
    | none =>
      simp only [hlast, Option.none_bind] at h
      exact Option.noConfusion h
    | some last =>
      simp only [hlast, Option.some_bind] at h
      have hjd : 0 ≤ last.jumpDepth := (hinv.2 _ (lookup_mem hlast)).1
      have hlen : last.internal_calls.length = last.jumpDepth.toNat + 1 :=
        (hinv.2 _ (lookup_mem hlast)).2
      cases hpcm : last.pc_map with
      | none =>
        simp only [hpcm] at h
        cases h
        exact hinv
      | some pcm =>
        simp only [hpcm] at h
        cases hpc : pcm.lookup ti.pc with
        | none =>
          simp only [hpc] at h
          cases h
          exact hinv
        | some pc =>
          simp only [hpc] at h
          cases hpath : pc.path with
          | none =>
            simp only [hpath] at h
            cases h
            exact hinv
          | some path =>
            simp only [hpath] at h
            cases hpm : last.path_map with
            | none =>
              simp only [hpm, Option.none_bind] at h
              exact Option.noConfusion h
            | some pm =>
              simp only [hpm, Option.some_bind] at h
              cases hfname : pm.lookup path with
              | none =>
                simp only [hfname, Option.none_bind] at h
                exact Option.noConfusion h
              | some fname =>
                simp only [hfname, Option.some_bind] at h
                have hinv2 : ExpandInv
                    { st with out := setLastSource st.out (fname, pc.offset) } :=
                  ⟨setLastSource_jumpDepth hinv.1, hinv.2⟩
                cases hfn : pc.fn with
                | none =>
                  simp only [hfn] at h
                  cases h
                  exact hinv2
                | some fn0 =>
                  simp only [hfn] at h
                  cases hj : pc.jump with
                  | none =>
                    simp only [hj] at h
                    cases h
                    exact hinv2
                  | some j =>
                    simp only [hj] at h
                    by_cases hji : j = "i"
                    · rw [if_pos hji] at h
                      cases hnxt : trace.get? (i + 1) with
                      | none =>
                        simp only [hnxt] at h
                        cases h
                        exact hinv2
                      | some nxt =>
                        simp only [hnxt] at h
                        cases hpe : pcm.lookup nxt.pc with
                        | none =>
                          simp only [hpe] at h
                          cases h
                          exact hinv2
                        | some pe =>
                          simp only [hpe] at h
                          cases hpefn : pe.fn with
                          | none =>
                            simp only [hpefn] at h
                            cases h
                            exact hinv2
                          | some fn2 =>
                            simp only [hpefn] at h
                            cases hlf : last.internal_calls.getLast? with
                            | none =>
                              simp only [hlf, Option.none_bind] at h
                              exact Option.noConfusion h
                            | some lastFn =>
                              simp only [hlf, Option.some_bind] at h
                              by_cases hne : fn2 ≠ lastFn
                              · rw [if_pos hne] at h
                                cases h
                                refine ⟨hinv2.1, ?_⟩
                                intro p hp
                                rcases assocSet_mem hp with h1 | h1
                                · subst h1
                                  refine ⟨?_, ?_⟩
                                  · show 0 ≤ last.jumpDepth + 1
                                    omega
                                  · show (last.internal_calls ++ [fn2]).length =
                                        (last.jumpDepth + 1).toNat + 1
                                    rw [List.length_append]
                                    simp only [List.length_singleton]
                                    omega
                                · exact hinv.2 p h1
                              · rw [if_neg hne] at h
                                cases h
                                exact hinv2
                    · rw [if_neg hji] at h
                      by_cases hgt : last.jumpDepth > 0
                      · rw [if_pos hgt] at h
                        by_cases hemp : last.internal_calls = []
                        · rw [if_pos hemp] at h
                          exact Option.noConfusion h
                        · rw [if_neg hemp] at h
                          cases h
                          refine ⟨hinv2.1, ?_⟩
                          intro p hp
                          rcases assocSet_mem hp with h1 | h1
                          · subst h1
                            refine ⟨?_, ?_⟩
                            · show 0 ≤ last.jumpDepth - 1
                              omega
                            · show last.internal_calls.dropLast.length =
                                  (last.jumpDepth - 1).toNat + 1
                              rw [List.length_dropLast]
                              omega
                          · exact hinv.2 p h1
                      · rw [if_neg hgt] at h
                        cases h
                        exact hinv2

/-- One full loop iteration preserves the invariant. -/
theorem expandStep_inv {env : ExpandEnv} {trace : List XStep} {st : ExpandState}
    {i : Nat} {st' : ExpandState} (h : expandStep env trace st i = some st')
    (hinv : ExpandInv st) : ExpandInv st' := by
  unfold expandStep at h
  cases h1 : expandSubcallPhase env trace st i with
  | none =>
    simp only [h1, Option.bind_eq_bind, Option.none_bind] at h
    exact Option.noConfusion h
  | some st1 =>
    simp only [h1, Option.bind_eq_bind, Option.some_bind] at h
    cases h2 : expandAnnotatePhase trace st1 i with
    | none =>
      simp only [h2, Option.none_bind] at h
      exact Option.noConfusion h
    | some st2 =>
      simp only [h2, Option.some_bind] at h
      exact expandJumpPhase_inv h
        (expandAnnotatePhase_inv h2 (expandSubcallPhase_inv h1 hinv).1).1

/-- The whole loop preserves the invariant. -/
theorem expandLoop_inv {env : ExpandEnv} {trace : List XStep} {idxs : List Nat}
    {st st' : ExpandState} (h : expandLoop env trace idxs st = some st')
    (hinv : ExpandInv st) : ExpandInv st' := by
  induction idxs generalizing st with
  | nil =>
    unfold expandLoop at h
    cases h
    exact hinv
  | cons i rest ih =>
    unfold expandLoop at h
    cases hs : expandStep env trace st i with
    | none =>
      rw [hs] at h
      exact Option.noConfusion h
    | some st2 =>
      rw [hs] at h
      exact ih h (expandStep_inv hs hinv)

/-- **C8**: during trace expansion a return-tagged jump pops the
context's internal-call stack and decrements its jump depth only while
the jump depth is positive (transaction.py 1030-1032); consequently, for
every successful expansion, every expanded step's `jumpDepth` is
non-negative, and every call context's internal-call stack is never
emptied below its initial entry — it stays non-empty, with length exactly
`jumpDepth + 1`. -/
theorem C8_jump_depth_safety (env : ExpandEnv) (receiver inputData : String)
    (contract_address : Option String) (gas_used : Int) (trace : List XStep)
    (st : ExpandState)
    (h : _expand_trace env receiver inputData contract_address gas_used trace =
      some st) :
    (∀ es ∈ st.out, 0 ≤ es.jumpDepth) ∧
    (∀ p ∈ st.last_map, (Prod.snd p).internal_calls ≠ [] ∧
      (Prod.snd p).internal_calls.length = (Prod.snd p).jumpDepth.toNat + 1 ∧
      0 ≤ (Prod.snd p).jumpDepth) := by
  have hinv : ExpandInv st := by
    unfold _expand_trace at h
    by_cases hearly : contract_address.isSome ∨ trace = []
    · rw [if_pos hearly] at h
      cases h
      exact ⟨fun es hes => absurd hes (List.not_mem_nil es),
             fun p hp => absurd hp (List.not_mem_nil p)⟩
    · rw [if_neg hearly] at h
      cases ht0 : trace.head? with
      | none =>
        cases htl : trace.getLast? <;> simp only [ht0, htl] at h <;>
          exact Option.noConfusion h
      | some t0 =>
        cases htl : trace.getLast? with
        | none =>
          simp only [ht0, htl] at h
          exact Option.noConfusion h
        | some tl =>
          simp only [ht0, htl] at h
          cases hsplit : (if t0.depth = 1 then
              (gas_used - t0.gas + tl.gas,
                trace.map (fun t => { t with depth := t.depth - 1 }))
            else if t0.gasCost ≥ 21000 then
              (t0.gasCost, shiftGasCosts trace)
            else
              (gas_used - t0.gas + tl.gas, trace)) with
          | mk cc trace2 =>
            rw [hsplit] at h
            simp only at h
            refine expandLoop_inv h ?_
            refine ⟨fun es hes => absurd hes (List.not_mem_nil es), ?_⟩
            intro p hp
            rw [List.mem_singleton] at hp
            subst hp
            refine ⟨le_of_eq
              (_get_last_map_shape env.registry receiver (inputData.take 10)).1.symm, ?_⟩
            rw [(_get_last_map_shape env.registry receiver (inputData.take 10)).2,
                (_get_last_map_shape env.registry receiver (inputData.take 10)).1]
            rfl
  refine ⟨hinv.1, ?_⟩
  intro p hp
  have h2 := hinv.2 p hp
  refine ⟨?_, h2.2, h2.1⟩
  intro hemp
  rw [hemp] at h2
  simp at h2

/-- Fixture for the C8 witness: a pc map whose pc 10 is an `i`-tagged
jump into an internal function and whose pc 12 is a return-tagged jump. -/
def c8Pcm : List (Nat × PcEntry) :=
  [(10, { path := some 0, offset := (0, 0), fn := some "f", jump := some "i" }),
   (11, { path := some 0, offset := (5, 9), fn := some "g", jump := none }),
   (12, { path := some 0, offset := (5, 9), fn := some "g", jump := some "o" })]

def c8Addr : String := "0x" ++ String.mk (List.replicate 40 'a')

def c8Info : ContractInfo :=
  { name := "Token", methods := [], methodObjs := [],
    pc_map := some c8Pcm, path_map := some [(0, "Token.sol")] }

def c8Env : ExpandEnv :=
  { registry := [(c8Addr, c8Info)], decodeInput := fun _ _ => none }

def mkC8Step (op : String) (pc : Nat) : XStep :=
  { op := op, pc := pc, depth := 1, gas := 0, gasCost := 0, stack := [], memory := [] }

def c8Trace : List XStep :=
  [mkC8Step "JUMP" 10, mkC8Step "JUMPDEST" 11, mkC8Step "JUMP" 12, mkC8Step "STOP" 13]

def c8Res : ExpandState :=
  (_expand_trace c8Env c8Addr "0xdeadbeef" none 0 c8Trace).getD
    { last_map := [], subcalls := [], new_contracts := [], internal_transfers := [],
      out := [], call_cost := 0 }

/-- C8 at a concrete four-step trace that enters one internal function
(jump depth 1 on the middle steps) and returns from it. -/
theorem C8_jump_depth_safety_witness :
    0 ≤ (c8Res.out.getD 1 default).jumpDepth ∧
    (c8Res.out.getD 1 default).jumpDepth = 1 ∧
    (c8Res.out.getD 3 default).jumpDepth = 0 ∧
    c8Res.last_map.length = 1 :=
  ⟨(C8_jump_depth_safety c8Env c8Addr "0xdeadbeef" none 0 c8Trace c8Res rfl).1
      (c8Res.out.getD 1 default) (by decide),
   by decide, by decide, by decide⟩

end Brownie
